import Mathlib

/-!
Shallow embedding of the core of the ai-study-buddy-quiz-generator repository:
the document-processing job (`src/lib/jobs.ts`, verbose revision), the AI
response normalizer and extractor (`src/lib/ai-provider.ts`), and the study
query surface (`src/integrations/trpc/study.ts`), together with theorems
settling the specification claims about them.

JavaScript machine details are embedded as follows: strings are Lean
`String`/`List Char`; byte buffers are `List Nat` with values below 256;
thrown JavaScript values are the type `JsError` (an `Error` carrying a
message, or a non-`Error` value); promise-based code is embedded as explicit
`Except`/state passing, with external effects (the PDF parsing library, the
AI provider network call, database I/O faults) supplied as oracle parameters.
-/

/-- Named characters, so that brace and backtick characters never appear
literally in the source of this file. -/
def lbrace : Char := Char.ofNat 123

/-- The closing brace character. -/
def rbrace : Char := Char.ofNat 125

/-- The backtick character used by markdown code fences. -/
def btick : Char := Char.ofNat 96

/-- The double-quote character. -/
def dquote : Char := Char.ofNat 34

/-- The backslash character. -/
def bslash : Char := Char.ofNat 92

/-- A thrown JavaScript value as seen by a `catch` block: either an `Error`
object carrying a `.message` string, or any other thrown value. -/
inductive JsError where
  | err (msg : String)
  | nonError
deriving DecidableEq, Repr

/-- The message derivation used at every catch site of the repository:
`error instanceof Error ? error.message : 'Unknown error'`. -/
def jsErrorMessage : JsError → String
  | .err m => m
  | .nonError => "Unknown error"

/-- Models the JavaScript expression `errorMessage || null` used by every
database adapter when persisting a status update (`json.ts` line 303,
`postgres.ts` line 194, `sqlite.ts` line 206): an absent or empty (falsy)
message is stored as `null`. -/
def falsyToNull : Option String → Option String
  | some m => if m = "" then none else some m
  | none => none

/-! ## Document processing job

Embedding of `processDocument` (the verbose revision of `src/lib/jobs.ts`,
part_007 lines 182-260).  Each awaited external operation is an oracle in
`JobEnv`; the document table is the state, reduced to the single document
being processed (`Option DocRecord`, `none` when the row does not exist).
-/

/-- The status column of the documents table. -/
inductive DocStatus where
  | pending
  | processing
  | completed
  | failed
deriving DecidableEq, Repr

/-- The fields of a document row that `processDocument` reads or writes. -/
structure DocRecord where
  fileData : String
  mimeType : String
  status : DocStatus
  errorMessage : Option String
deriving DecidableEq, Repr

/-- The generated study material record (summary, flashcards, quiz), opaque
to the job driver. -/
structure Material where
  summary : String
deriving DecidableEq, Repr

/-- Oracles for every awaited operation of `processDocument`: a `.error`
value is an exception thrown (a rejected promise) at that call site.
`updProcessingFail`, `updCompletedFail` and `updFailedFail` are the faults of
the three `updateStatus` calls; the updates themselves are state writes. -/
structure JobEnv where
  ensureDb : Except JsError Unit
  updProcessingFail : Option JsError
  findThrow : Option JsError
  extract : String → String → Except JsError String
  generate : String → Except JsError Material
  createMaterial : Except JsError Unit
  updCompletedFail : Option JsError
  ensureDb2 : Except JsError Unit
  updFailedFail : Option JsError

/-- Models `IDocumentRepository.updateStatus(id, status, errorMessage?)` as
implemented by every adapter: update the row if it exists (no-op otherwise),
storing `errorMessage || null`. -/
def updateStatusModel (dbs : Option DocRecord) (status : DocStatus)
    (errorMessage : Option String) : Option DocRecord :=
  dbs.map fun d => { d with status := status, errorMessage := falsyToNull errorMessage }

/-- The try-block of `processDocument` (part_007 lines 188-238): returns the
document state after the body together with the exception reaching the catch
block, if any. -/
def processDocumentBody (env : JobEnv) (documentId : String)
    (dbs : Option DocRecord) : Option DocRecord × Option JsError :=
  match env.ensureDb with
  | .error e => (dbs, some e)
  | .ok _ =>
    match env.updProcessingFail with
    | some e => (dbs, some e)
    | none =>
      let dbs := updateStatusModel dbs .processing none
      match env.findThrow with
      | some e => (dbs, some e)
      | none =>
        match dbs with
        | none => (dbs, some (.err ("Document not found: " ++ documentId)))
        | some doc =>
          match env.extract doc.fileData doc.mimeType with
          | .error e => (dbs, some e)
          | .ok content =>
            match env.generate content with
            | .error e => (dbs, some e)
            | .ok _material =>
              match env.createMaterial with
              | .error e => (dbs, some e)
              | .ok _ =>
                match env.updCompletedFail with
                | some e => (dbs, some e)
                | none => (updateStatusModel dbs .completed none, none)

/-- Embedding of `processDocument` (part_007 lines 182-260).  The first
component is the final document state; the second is the exception escaping
`processDocument` to its caller (always `none`: every exception of the body
is handled by the catch block, and the catch block guards its own status
update with a nested try/catch that only logs a secondary failure). -/
def processDocument (env : JobEnv) (documentId : String)
    (dbs : Option DocRecord) : Option DocRecord × Option JsError :=
  match processDocumentBody env documentId dbs with
  | (dbs1, none) => (dbs1, none)
  | (dbs1, some e) =>
    match env.ensureDb2 with
    | .error _ => (dbs1, none)
    | .ok _ =>
      match env.updFailedFail with
      | some _ => (dbs1, none)
      | none => (updateStatusModel dbs1 .failed (some (jsErrorMessage e)), none)

/-! ### Claims C1 and C2: job terminal state and error capture -/

/-- Holds of a document-table state when the document exists and its status
is one of the two terminal states. -/
def docTerminal : Option DocRecord → Prop
  | some d1 => d1.status = .completed ∨ d1.status = .failed
  | none => False

/-- Claim C1: whenever `processDocument` runs to completion on an existing
document, the document's final status is exactly one of
completed or failed — never `processing` — regardless of failures injected
at steps 2-5 (or indeed at any awaited operation of the try block), provided
the catch block's own recovery (re-init plus the failed-status update)
succeeds. -/
theorem processDocument_terminal (env : JobEnv) (documentId : String) (d : DocRecord)
    (h2 : env.ensureDb2 = .ok ()) (h3 : env.updFailedFail = none) :
    docTerminal (processDocument env documentId (some d)).1 := by
  rcases env with ⟨edb, upf, ft, ex, gen, cm, ucf, edb2, uff⟩
  simp only at h2 h3
  subst h2 h3
  rcases edb with e | u
  · simp [processDocument, processDocumentBody, updateStatusModel, docTerminal]
  · rcases upf with _ | e
    · rcases ft with _ | e
      · rcases hex : ex (DocRecord.fileData d) (DocRecord.mimeType d) with e | content
        · simp [processDocument, processDocumentBody, updateStatusModel, docTerminal, hex]
        · rcases hgen : gen content with e | m
          · simp [processDocument, processDocumentBody, updateStatusModel, docTerminal, hex, hgen]
          · rcases cm with e | _
            · simp [processDocument, processDocumentBody, updateStatusModel, docTerminal, hex, hgen]
            · rcases ucf with _ | e
              · simp [processDocument, processDocumentBody, updateStatusModel, docTerminal, hex, hgen]
              · simp [processDocument, processDocumentBody, updateStatusModel, docTerminal, hex, hgen]
      · simp [processDocument, processDocumentBody, updateStatusModel, docTerminal]
    · simp [processDocument, processDocumentBody, updateStatusModel, docTerminal]

/-- A fault-free job environment used to instantiate the job theorems. -/
def happyJobEnv : JobEnv where
  ensureDb := .ok ()
  updProcessingFail := none
  findThrow := none
  extract := fun _ _ => .ok "sample text"
  generate := fun _ => .ok ⟨"summary"⟩
  createMaterial := .ok ()
  updCompletedFail := none
  ensureDb2 := .ok ()
  updFailedFail := none

/-- A sample pending document row. -/
def sampleDoc : DocRecord where
  fileData := "ZGF0YQ=="
  mimeType := "text/plain"
  status := .pending
  errorMessage := none

/-- Witness for claim C1, instantiating the theorem at a concrete
environment and document. -/
theorem processDocument_terminal_witness :
    happyJobEnv.ensureDb2 = .ok () ∧ happyJobEnv.updFailedFail = none ∧
    docTerminal (processDocument happyJobEnv "doc-1" (some sampleDoc)).1 :=
  ⟨rfl, rfl, processDocument_terminal happyJobEnv "doc-1" sampleDoc rfl rfl⟩

/-- The document state after the job persists a failure caused by the
thrown value `e`: status `failed`, and `errorMessage` set to the derived
message coerced through the adapters' `errorMessage || null`. -/
def failedState (d : DocRecord) (e : JsError) : DocRecord :=
  { d with status := .failed, errorMessage := falsyToNull (some (jsErrorMessage e)) }

/-- Claim C2 (amended): an exception thrown at any of steps 2-5 (document
load, text extraction, material generation, persisting the material) is
caught at the job boundary and never rethrown; the status becomes `failed`
and the persisted `errorMessage` is the exception's message for an `Error`
with a nonempty message, the string `Unknown error` for a non-`Error`
throwable, and `null` for an `Error` carrying the empty message (the
adapters' `errorMessage || null` coerces the empty string to `null`). -/
theorem processDocument_catches (env : JobEnv) (documentId : String) (d : DocRecord)
    (h0 : env.ensureDb = .ok ()) (h1 : env.updProcessingFail = none)
    (h2 : env.ensureDb2 = .ok ()) (h3 : env.updFailedFail = none) :
    (∀ e, env.findThrow = some e →
      processDocument env documentId (some d) = (some (failedState d e), none)) ∧
    (∀ e, env.findThrow = none →
      env.extract d.fileData d.mimeType = .error e →
      processDocument env documentId (some d) = (some (failedState d e), none)) ∧
    (∀ e content, env.findThrow = none →
      env.extract d.fileData d.mimeType = .ok content →
      env.generate content = .error e →
      processDocument env documentId (some d) = (some (failedState d e), none)) ∧
    (∀ e content m, env.findThrow = none →
      env.extract d.fileData d.mimeType = .ok content →
      env.generate content = .ok m →
      env.createMaterial = .error e →
      processDocument env documentId (some d) = (some (failedState d e), none)) ∧
    (∀ env2 id2 dbs2, (processDocument env2 id2 dbs2).2 = none) := by
  rcases env with ⟨edb, upf, ft, ex, gen, cm, ucf, edb2, uff⟩
  simp only at h0 h1 h2 h3 ⊢
  subst h0 h1 h2 h3
  refine ⟨?_, ?_, ?_, ?_, ?_⟩
  · rintro e rfl
    simp [processDocument, processDocumentBody, updateStatusModel, failedState, falsyToNull]
  · rintro e rfl hex
    simp [processDocument, processDocumentBody, updateStatusModel, failedState, falsyToNull, hex]
  · rintro e content rfl hex hgen
    simp [processDocument, processDocumentBody, updateStatusModel, failedState, falsyToNull, hex, hgen]
  · rintro e content m rfl hex hgen hcm
    simp [processDocument, processDocumentBody, updateStatusModel, failedState, falsyToNull, hex,
      hgen, hcm]
  · intro env2 id2 dbs2
    unfold processDocument
    rcases hb : processDocumentBody env2 id2 dbs2 with ⟨dbs1, _ | e⟩
    · rfl
    · rcases env2.ensureDb2 with e2 | u2
      · rfl
      · rcases env2.updFailedFail with _ | e3 <;> rfl

/-- An environment whose material-generation step rejects with an `Error`
whose `message` is the empty string. -/
def emptyMsgEnv : JobEnv where
  ensureDb := .ok ()
  updProcessingFail := none
  findThrow := none
  extract := fun _ _ => .ok "sample text"
  generate := fun _ => .error (.err "")
  createMaterial := .ok ()
  updCompletedFail := none
  ensureDb2 := .ok ()
  updFailedFail := none

/-- Counterexample to claim C2 as stated: an exception that is an `Error`
carrying the message `""` is caught at step 4, but the persisted
`errorMessage` ends up `null` — neither the exception's message (the empty
string) nor the string `Unknown error` — because the adapters store
`errorMessage || null` and the empty string is falsy. -/
theorem processDocument_empty_message_dropped :
    (processDocument emptyMsgEnv "doc-1" (some sampleDoc)).1 =
      some { sampleDoc with status := .failed, errorMessage := none } ∧
    jsErrorMessage (.err "") = "" ∧
    (some { sampleDoc with status := .failed, errorMessage := none } ≠
      some { sampleDoc with status := .failed, errorMessage := some "" }) ∧
    (some { sampleDoc with status := .failed, errorMessage := none } ≠
      some { sampleDoc with status := .failed, errorMessage := some "Unknown error" }) := by
  refine ⟨?_, rfl, by simp, by simp⟩
  simp [processDocument, processDocumentBody, emptyMsgEnv, sampleDoc, updateStatusModel,
    falsyToNull, jsErrorMessage]

/-- An environment whose extraction step rejects with a nonempty `Error`
message. -/
def extractFailEnv : JobEnv where
  ensureDb := .ok ()
  updProcessingFail := none
  findThrow := none
  extract := fun _ _ => .error (.err "Failed to parse PDF: Invalid PDF structure")
  generate := fun _ => .ok ⟨"summary"⟩
  createMaterial := .ok ()
  updCompletedFail := none
  ensureDb2 := .ok ()
  updFailedFail := none

/-- Witness for the amended claim C2, instantiated at an environment whose
extraction step throws. -/
theorem processDocument_catches_witness :
    extractFailEnv.ensureDb = .ok () ∧ extractFailEnv.updProcessingFail = none ∧
    extractFailEnv.ensureDb2 = .ok () ∧ extractFailEnv.updFailedFail = none ∧
    ((∀ e, extractFailEnv.findThrow = some e →
      processDocument extractFailEnv "doc-1" (some sampleDoc) = (some (failedState sampleDoc e), none)) ∧
    (∀ e, extractFailEnv.findThrow = none →
      extractFailEnv.extract sampleDoc.fileData sampleDoc.mimeType = .error e →
      processDocument extractFailEnv "doc-1" (some sampleDoc) = (some (failedState sampleDoc e), none)) ∧
    (∀ e content, extractFailEnv.findThrow = none →
      extractFailEnv.extract sampleDoc.fileData sampleDoc.mimeType = .ok content →
      extractFailEnv.generate content = .error e →
      processDocument extractFailEnv "doc-1" (some sampleDoc) = (some (failedState sampleDoc e), none)) ∧
    (∀ e content m, extractFailEnv.findThrow = none →
      extractFailEnv.extract sampleDoc.fileData sampleDoc.mimeType = .ok content →
      extractFailEnv.generate content = .ok m →
      extractFailEnv.createMaterial = .error e →
      processDocument extractFailEnv "doc-1" (some sampleDoc) = (some (failedState sampleDoc e), none)) ∧
    (∀ env2 id2 dbs2, (processDocument env2 id2 dbs2).2 = none)) :=
  ⟨rfl, rfl, rfl, rfl, processDocument_catches extractFailEnv "doc-1" sampleDoc rfl rfl rfl rfl⟩

/-! ## Study query surface

Embedding of the read-side procedures of `src/integrations/trpc/study.ts`.
Authentication is out of scope for these claims (the spec treats it as a
black-box current-user resolver), so each query takes the already-resolved
requesting user's id. -/

/-- A row of the documents table as the query surface sees it. -/
structure StudyDoc where
  id : String
  userId : String
  fileName : String
  status : DocStatus
  errorMessage : Option String
deriving DecidableEq, Repr

/-- A row of the study_materials table. -/
structure StudyMaterialRow where
  id : String
  documentId : String
  summary : Option String
deriving DecidableEq, Repr

/-- A row of the quiz_progress table.  Scores are validated at the boundary
as integers with `score ≥ 0` and `totalQuestions ≥ 1`; note the row stores no
percentage. -/
structure QuizProgressRow where
  id : String
  userId : String
  studyMaterialId : String
  score : Nat
  totalQuestions : Nat
deriving DecidableEq, Repr

/-- The three tables the study router reads. -/
structure StudyDb where
  documents : List StudyDoc
  studyMaterials : List StudyMaterialRow
  quizProgress : List QuizProgressRow

/-- The TRPC error codes thrown by the study router. -/
inductive TrpcCode where
  | NOT_FOUND
  | UNAUTHORIZED
deriving DecidableEq, Repr

/-- A thrown `TRPCError`, as observable by the caller. -/
structure TrpcError where
  code : TrpcCode
  message : String
deriving DecidableEq, Repr

/-- The single error value thrown by `status` and `getMaterial` both when
the document does not exist and when it is owned by another user
(`study.ts` lines 68-70 and 89-91). -/
def documentNotFound : TrpcError :=
  { code := .NOT_FOUND, message := "Document not found" }

/-- The payload returned by the `status` query. -/
structure StatusResult where
  status : DocStatus
  errorMessage : Option String
deriving DecidableEq, Repr

/-- Embedding of the `status` query (`study.ts` lines 57-76): select the
document by id, then `if (!doc || doc.userId !== user.id)` throw not-found,
else return its status and error message. -/
def statusQuery (dbs : StudyDb) (userId : String) (documentId : String) :
    Except TrpcError StatusResult :=
  match dbs.documents.find? (fun d => d.id = documentId) with
  | none => .error documentNotFound
  | some doc =>
    if doc.userId ≠ userId then .error documentNotFound
    else .ok { status := doc.status, errorMessage := doc.errorMessage }

/-- Embedding of `getDocumentWithMaterial` (`jobs.ts`): the document by id
(or `none`), paired with its study material if one exists. -/
def getDocumentWithMaterial (dbs : StudyDb) (documentId : String) :
    Option (StudyDoc × Option StudyMaterialRow) :=
  match dbs.documents.find? (fun d => d.id = documentId) with
  | none => none
  | some doc => some (doc, dbs.studyMaterials.find? (fun m => m.documentId = documentId))

/-- The payload returned by the `getMaterial` query. -/
structure GetMaterialResult where
  docId : String
  fileName : String
  status : DocStatus
  studyMaterial : Option StudyMaterialRow
deriving DecidableEq, Repr

/-- Embedding of the `getMaterial` query (`study.ts` lines 79-107): load the
document with its material, throw not-found if absent or not owned by the
requesting user, else return the document projection and the material (which
is `null` when generation has not completed). -/
def getMaterialQuery (dbs : StudyDb) (userId : String) (documentId : String) :
    Except TrpcError GetMaterialResult :=
  match getDocumentWithMaterial dbs documentId with
  | none => .error documentNotFound
  | some (doc, mat) =>
    if doc.userId ≠ userId then .error documentNotFound
    else .ok { docId := doc.id, fileName := doc.fileName, status := doc.status,
               studyMaterial := mat }

/-- JavaScript `Math.round` on an exact rational: round half toward positive
infinity. -/
def jsMathRound (q : ℚ) : ℤ := ⌊q + 1 / 2⌋

/-- The percentage computed at read time by `getProgress`
(`study.ts` line 170): `Math.round((p.score / p.totalQuestions) * 100)`. -/
def progressPercentage (score totalQuestions : Nat) : ℤ :=
  jsMathRound ((score : ℚ) / (totalQuestions : ℚ) * 100)

/-- One element of the `getProgress` response. -/
structure ProgressView where
  id : String
  score : Nat
  totalQuestions : Nat
  percentage : ℤ
deriving DecidableEq, Repr

/-- The per-row projection performed by `getProgress` (`study.ts` lines
166-172). -/
def progressView (p : QuizProgressRow) : ProgressView :=
  { id := p.id, score := p.score, totalQuestions := p.totalQuestions,
    percentage := progressPercentage p.score p.totalQuestions }

/-- Embedding of the `getProgress` query (`study.ts` lines 149-173): the
base query filters by the requesting user's id, but when a
`studyMaterialId` argument is present the query is replaced by one that
filters by that material id only. -/
def getProgressQuery (dbs : StudyDb) (userId : String)
    (studyMaterialId : Option String) : List ProgressView :=
  let rows : List QuizProgressRow :=
    match studyMaterialId with
    | none => dbs.quizProgress.filter (fun p => p.userId = userId)
    | some m => dbs.quizProgress.filter (fun p => p.studyMaterialId = m)
  rows.map progressView

/-! ### Claims C5, C7 and C10: query surface properties -/

/-- Claim C5: `status` and `getMaterial` return data only when the document
exists and is owned by the requesting user; a missing document and a
document owned by someone else both produce the very same not-found error
value, so the two cases are indistinguishable to the caller. -/
theorem studyQueries_ownership :
    (∀ dbs userId documentId,
      dbs.documents.find? (fun d => d.id = documentId) = none →
        statusQuery dbs userId documentId = .error documentNotFound ∧
        getMaterialQuery dbs userId documentId = .error documentNotFound) ∧
    (∀ dbs userId documentId doc,
      dbs.documents.find? (fun d => d.id = documentId) = some doc →
      doc.userId ≠ userId →
        statusQuery dbs userId documentId = .error documentNotFound ∧
        getMaterialQuery dbs userId documentId = .error documentNotFound) ∧
    (∀ dbs userId documentId doc,
      dbs.documents.find? (fun d => d.id = documentId) = some doc →
      doc.userId = userId →
        statusQuery dbs userId documentId =
          .ok { status := doc.status, errorMessage := doc.errorMessage } ∧
        getMaterialQuery dbs userId documentId =
          .ok { docId := doc.id, fileName := doc.fileName, status := doc.status,
                studyMaterial :=
                  dbs.studyMaterials.find? (fun m => m.documentId = documentId) }) := by
  refine ⟨?_, ?_, ?_⟩
  · intro dbs userId documentId h
    constructor <;> simp [statusQuery, getMaterialQuery, getDocumentWithMaterial, h]
  · intro dbs userId documentId doc h hne
    constructor <;> simp [statusQuery, getMaterialQuery, getDocumentWithMaterial, h, hne]
  · intro dbs userId documentId doc h heq
    constructor <;> simp [statusQuery, getMaterialQuery, getDocumentWithMaterial, h, heq]

/-- A one-document table owned by the user alice, used to instantiate the
query-surface theorems. -/
def aliceDb : StudyDb where
  documents := [{ id := "d1", userId := "alice", fileName := "notes.pdf",
                  status := .completed, errorMessage := none }]
  studyMaterials := [{ id := "m1", documentId := "d1", summary := some "s" }]
  quizProgress := []

/-- Witness for claim C5: with a store holding only alice's document `d1`,
the user bob's status/getMaterial calls on `d1` and alice's calls on a
nonexistent id produce the identical not-found error. -/
theorem studyQueries_ownership_witness :
    aliceDb.documents.find? (fun d => d.id = "d1") =
      some { id := "d1", userId := "alice", fileName := "notes.pdf",
             status := .completed, errorMessage := none } ∧
    ("alice" : String) ≠ "bob" ∧
    (statusQuery aliceDb "bob" "d1" = .error documentNotFound ∧
      getMaterialQuery aliceDb "bob" "d1" = .error documentNotFound) ∧
    aliceDb.documents.find? (fun d => d.id = "dX") = none ∧
    (statusQuery aliceDb "alice" "dX" = .error documentNotFound ∧
      getMaterialQuery aliceDb "alice" "dX" = .error documentNotFound) :=
  ⟨rfl, by decide,
    studyQueries_ownership.2.1 aliceDb "bob" "d1" _ rfl (by decide),
    rfl,
    studyQueries_ownership.1 aliceDb "alice" "dX" rfl⟩

/-- A quiz-progress table holding a single attempt by alice on material
`m1`. -/
def aliceProgressDb : StudyDb where
  documents := []
  studyMaterials := []
  quizProgress := [{ id := "p1", userId := "alice", studyMaterialId := "m1",
                     score := 7, totalQuestions := 10 }]

/-- Claim C7: when `getProgress` is called with a `studyMaterialId`, the
rows are filtered by that material id only — the user filter of the
no-argument path is dropped — so the requesting user bob receives alice's
attempt on that material. -/
theorem getProgress_material_path_ignores_user :
    (∀ dbs userId m, getProgressQuery dbs userId (some m) =
      (dbs.quizProgress.filter (fun p => p.studyMaterialId = m)).map progressView) ∧
    progressView { id := "p1", userId := "alice", studyMaterialId := "m1",
                   score := 7, totalQuestions := 10 } ∈
      getProgressQuery aliceProgressDb "bob" (some "m1") := by
  constructor
  · intro dbs userId m
    rfl
  · simp [getProgressQuery, aliceProgressDb]

/-- Claim C10: every row returned by `getProgress` reports
`percentage = round(score / totalQuestions * 100)`, computed at read time
(the stored row has no percentage field); in particular 7 of 10 reports 70,
10 of 10 reports 100 and 0 of 10 reports 0. -/
theorem getProgress_percentage_rounding :
    (∀ dbs userId smId v, v ∈ getProgressQuery dbs userId smId →
      v.percentage = jsMathRound ((v.score : ℚ) / (v.totalQuestions : ℚ) * 100)) ∧
    progressPercentage 7 10 = 70 ∧ progressPercentage 10 10 = 100 ∧
    progressPercentage 0 10 = 0 := by
  refine ⟨?_, by norm_num [progressPercentage, jsMathRound],
    by norm_num [progressPercentage, jsMathRound],
    by norm_num [progressPercentage, jsMathRound]⟩
  intro dbs userId smId v hv
  rcases smId with _ | m <;>
  · simp only [getProgressQuery, List.mem_map] at hv
    obtain ⟨p, _, rfl⟩ := hv
    rfl

/-- Witness for claim C10, instantiating the rounding property at alice's
stored 7-of-10 attempt. -/
theorem getProgress_percentage_rounding_witness :
    progressView { id := "p1", userId := "alice", studyMaterialId := "m1",
                   score := 7, totalQuestions := 10 } ∈
      getProgressQuery aliceProgressDb "alice" none ∧
    (progressView { id := "p1", userId := "alice", studyMaterialId := "m1",
                    score := 7, totalQuestions := 10 }).percentage =
      jsMathRound
        (((progressView { id := "p1", userId := "alice", studyMaterialId := "m1",
                          score := 7, totalQuestions := 10 }).score : ℚ) /
          ((progressView { id := "p1", userId := "alice", studyMaterialId := "m1",
                           score := 7, totalQuestions := 10 }).totalQuestions : ℚ) * 100) :=
  ⟨by simp [getProgressQuery, aliceProgressDb],
    getProgress_percentage_rounding.1 aliceProgressDb "alice" none _
      (by simp [getProgressQuery, aliceProgressDb])⟩

/-! ## Base64 and UTF-8

`Buffer.from(base64Data, 'base64')` and `.toString('utf-8')` embedded over
byte lists (`List Nat`, values below 256). -/

/-- The padding character of base64. -/
def padChar : Char := '='

/-- The base64 alphabet: index 0-25 map to uppercase letters, 26-51 to
lowercase letters, 52-61 to digits, 62 to plus and 63 to slash. -/
def b64Char (n : Nat) : Char :=
  Char.ofNat
    (if n < 26 then 65 + n
     else if n < 52 then 97 + (n - 26)
     else if n < 62 then 48 + (n - 52)
     else if n = 62 then 43
     else 47)

/-- The inverse base64 alphabet lookup (0 for characters outside the
alphabet, which well-formed input never hits). -/
def b64Val (c : Char) : Nat :=
  let n := c.toNat
  if 65 ≤ n ∧ n ≤ 90 then n - 65
  else if 97 ≤ n ∧ n ≤ 122 then n - 97 + 26
  else if 48 ≤ n ∧ n ≤ 57 then n - 48 + 52
  else if n = 43 then 62
  else if n = 47 then 63
  else 0

/-- Standard base64 encoding of a byte list, three bytes to four
characters, padded with `=`. -/
def b64Encode : List Nat → List Char
  | [] => []
  | [b0] => [b64Char (b0 / 4), b64Char (b0 % 4 * 16), padChar, padChar]
  | [b0, b1] =>
      [b64Char (b0 / 4), b64Char (b0 % 4 * 16 + b1 / 16), b64Char (b1 % 16 * 4), padChar]
  | b0 :: b1 :: b2 :: rest =>
      b64Char (b0 / 4) :: b64Char (b0 % 4 * 16 + b1 / 16) ::
      b64Char (b1 % 16 * 4 + b2 / 64) :: b64Char (b2 % 64) :: b64Encode rest

/-- Base64 decoding of a well-formed (4-character-aligned, `=`-padded)
base64 text, as `Buffer.from(x, 'base64')` produces for such input. -/
def b64Decode : List Char → List Nat
  | c0 :: c1 :: c2 :: c3 :: rest =>
      if c2 = padChar then [b64Val c0 * 4 + b64Val c1 / 16]
      else if c3 = padChar then
        [b64Val c0 * 4 + b64Val c1 / 16, b64Val c1 % 16 * 16 + b64Val c2 / 4]
      else
        (b64Val c0 * 4 + b64Val c1 / 16) :: (b64Val c1 % 16 * 16 + b64Val c2 / 4) ::
        (b64Val c2 % 4 * 64 + b64Val c3) :: b64Decode rest
  | _ => []

/-- Looking a base64 alphabet character back up recovers its index. -/
theorem b64Val_b64Char (n : Nat) (h : n < 64) : b64Val (b64Char n) = n := by
  interval_cases n <;> decide

/-- No base64 alphabet character is the padding character. -/
theorem b64Char_ne_padChar (n : Nat) (h : n < 64) : b64Char n ≠ padChar := by
  interval_cases n <;> decide

/-- Decoding inverts encoding on byte lists. -/
theorem b64Decode_b64Encode (bs : List Nat) (h : ∀ b ∈ bs, b < 256) :
    b64Decode (b64Encode bs) = bs := by
  induction bs using b64Encode.induct with
  | case1 => rfl
  | case2 b0 =>
    have hb0 : b0 < 256 := h b0 (by simp)
    simp only [b64Encode, b64Decode, if_true]
    rw [b64Val_b64Char _ (by omega), b64Val_b64Char _ (by omega)]
    simp only [List.cons.injEq, and_true]
    omega
  | case3 b0 b1 =>
    have hb0 : b0 < 256 := h b0 (by simp)
    have hb1 : b1 < 256 := h b1 (by simp)
    simp only [b64Encode, b64Decode, if_true]
    rw [if_neg (b64Char_ne_padChar _ (by omega))]
    rw [b64Val_b64Char _ (by omega), b64Val_b64Char _ (by omega),
      b64Val_b64Char _ (by omega)]
    simp only [List.cons.injEq, and_true]
    omega
  | case4 b0 b1 b2 rest ih =>
    have hb0 : b0 < 256 := h b0 (by simp)
    have hb1 : b1 < 256 := h b1 (by simp)
    have hb2 : b2 < 256 := h b2 (by simp)
    have hrest : ∀ b ∈ rest, b < 256 := fun b hb => h b (by simp [hb])
    simp only [b64Encode, b64Decode, if_true]
    rw [if_neg (b64Char_ne_padChar _ (by omega)), if_neg (b64Char_ne_padChar _ (by omega))]
    rw [b64Val_b64Char _ (by omega), b64Val_b64Char _ (by omega),
      b64Val_b64Char _ (by omega), b64Val_b64Char _ (by omega)]
    simp only [List.cons.injEq]
    refine ⟨by omega, by omega, by omega, ih hrest⟩

/-- Every Unicode scalar value is below 0x110000. -/
theorem char_toNat_lt (c : Char) : c.toNat < 1114112 := by
  have h := c.valid
  have he : c.toNat = c.val.toNat := rfl
  rcases h with h | h <;> omega

/-- UTF-8 encoding of one Unicode scalar value (1 to 4 bytes). -/
def utf8EncodeChar (c : Char) : List Nat :=
  if c.toNat < 128 then [c.toNat]
  else if c.toNat < 2048 then [192 + c.toNat / 64, 128 + c.toNat % 64]
  else if c.toNat < 65536 then
    [224 + c.toNat / 4096, 128 + c.toNat / 64 % 64, 128 + c.toNat % 64]
  else
    [240 + c.toNat / 262144, 128 + c.toNat / 4096 % 64, 128 + c.toNat / 64 % 64,
      128 + c.toNat % 64]

/-- UTF-8 encoding of a character list. -/
def utf8Encode (s : List Char) : List Nat := s.flatMap utf8EncodeChar

/-- UTF-8 decoding of a byte list, dispatching on the leading byte of each
sequence (malformed input degrades to the replacement character, which
well-formed input never hits). -/
def utf8Decode : List Nat → List Char
  | [] => []
  | b0 :: tail =>
    if b0 < 128 then Char.ofNat b0 :: utf8Decode tail
    else if b0 < 192 then Char.ofNat 65533 :: utf8Decode tail
    else if b0 < 224 then
      if 1 ≤ tail.length then
        Char.ofNat ((b0 - 192) * 64 + (tail.headD 0 - 128)) :: utf8Decode (tail.drop 1)
      else [Char.ofNat 65533]
    else if b0 < 240 then
      if 2 ≤ tail.length then
        Char.ofNat ((b0 - 224) * 4096 + (tail.headD 0 - 128) * 64 +
          ((tail.drop 1).headD 0 - 128)) :: utf8Decode (tail.drop 2)
      else [Char.ofNat 65533]
    else
      if 3 ≤ tail.length then
        Char.ofNat ((b0 - 240) * 262144 + (tail.headD 0 - 128) * 4096 +
          ((tail.drop 1).headD 0 - 128) * 64 + ((tail.drop 2).headD 0 - 128)) ::
          utf8Decode (tail.drop 3)
      else [Char.ofNat 65533]
termination_by bs => bs.length
decreasing_by
  all_goals simp [List.length_drop]
  all_goals omega

/-- Every byte produced by the UTF-8 encoder is below 256. -/
theorem utf8EncodeChar_lt (c : Char) : ∀ b ∈ utf8EncodeChar c, b < 256 := by
  have hc := char_toNat_lt c
  intro b hb
  unfold utf8EncodeChar at hb
  by_cases h1 : c.toNat < 128
  · rw [if_pos h1] at hb
    simp only [List.mem_singleton] at hb
    omega
  · by_cases h2 : c.toNat < 2048
    · rw [if_neg h1, if_pos h2] at hb
      simp only [List.mem_cons, List.not_mem_nil, or_false] at hb
      rcases hb with rfl | rfl <;> omega
    · by_cases h3 : c.toNat < 65536
      · rw [if_neg h1, if_neg h2, if_pos h3] at hb
        simp only [List.mem_cons, List.not_mem_nil, or_false] at hb
        rcases hb with rfl | rfl | rfl <;> omega
      · rw [if_neg h1, if_neg h2, if_neg h3] at hb
        simp only [List.mem_cons, List.not_mem_nil, or_false] at hb
        rcases hb with rfl | rfl | rfl | rfl <;> omega

/-- Decoding a character's UTF-8 bytes at the head of a stream recovers the
character and continues with the rest of the stream. -/
theorem utf8Decode_encodeChar (c : Char) (rest : List Nat) :
    utf8Decode (utf8EncodeChar c ++ rest) = c :: utf8Decode rest := by
  have hc := char_toNat_lt c
  unfold utf8EncodeChar
  by_cases h1 : c.toNat < 128
  · rw [if_pos h1]
    simp only [List.cons_append, List.nil_append]
    rw [utf8Decode, if_pos (by omega : c.toNat < 128), Char.ofNat_toNat]
  · by_cases h2 : c.toNat < 2048
    · rw [if_neg h1, if_pos h2]
      simp only [List.cons_append, List.nil_append]
      rw [utf8Decode]
      rw [if_neg (by omega), if_neg (by omega), if_pos (by omega)]
      rw [if_pos (by simp)]
      simp only [List.headD_cons, List.drop_succ_cons, List.drop_zero]
      have he : (192 + c.toNat / 64 - 192) * 64 + (128 + c.toNat % 64 - 128) = c.toNat := by
        omega
      rw [he, Char.ofNat_toNat]
    · by_cases h3 : c.toNat < 65536
      · rw [if_neg h1, if_neg h2, if_pos h3]
        simp only [List.cons_append, List.nil_append]
        rw [utf8Decode]
        rw [if_neg (by omega), if_neg (by omega), if_neg (by omega), if_pos (by omega)]
        rw [if_pos (by simp)]
        simp only [List.headD_cons, List.drop_succ_cons, List.drop_zero]
        have he : (224 + c.toNat / 4096 - 224) * 4096 + (128 + c.toNat / 64 % 64 - 128) * 64 +
            (128 + c.toNat % 64 - 128) = c.toNat := by
          omega
        rw [he, Char.ofNat_toNat]
      · rw [if_neg h1, if_neg h2, if_neg h3]
        simp only [List.cons_append, List.nil_append]
        rw [utf8Decode]
        rw [if_neg (by omega), if_neg (by omega), if_neg (by omega), if_neg (by omega)]
        rw [if_pos (by simp)]
        simp only [List.headD_cons, List.drop_succ_cons, List.drop_zero]
        have he : (240 + c.toNat / 262144 - 240) * 262144 +
            (128 + c.toNat / 4096 % 64 - 128) * 4096 +
            (128 + c.toNat / 64 % 64 - 128) * 64 + (128 + c.toNat % 64 - 128) = c.toNat := by
          omega
        rw [he, Char.ofNat_toNat]

/-- UTF-8 decoding inverts UTF-8 encoding on character lists. -/
theorem utf8Decode_utf8Encode (s : List Char) : utf8Decode (utf8Encode s) = s := by
  induction s with
  | nil => simp [utf8Encode, utf8Decode]
  | cons c cs ih =>
    rw [utf8Encode, List.flatMap_cons, utf8Decode_encodeChar]
    rw [utf8Encode] at ih
    rw [ih]

/-- UTF-8 decoding inverts UTF-8 encoding, at the level of whole strings. -/
theorem stringMk_toList (s : String) : String.mk s.toList = s := by
  cases s
  rfl

/-! ## Content extractor

Embedding of `extractTextFromBase64` (`ai-provider.ts` lines 222-276).
The pdf-parse library call is an oracle over the decoded bytes; everything
else is computed. -/

/-- The result object of the pdf-parse library (`pdfData.text`,
`pdfData.numpages`). -/
structure PdfData where
  text : String
  numpages : Nat

/-- Substring test on character lists, the semantics of JavaScript
`String.prototype.includes`. -/
def containsSub (pat : List Char) : List Char → Bool
  | [] => decide (pat = [])
  | c :: tail => pat.isPrefixOf (c :: tail) || containsSub pat tail

/-- JavaScript `s.includes(pat)`. -/
def strIncludes (s pat : String) : Bool := containsSub pat.toList s.toList

/-- The literal suffix appended when extracted text is truncated
(`ai-provider.ts` line 251). -/
def truncationSuffix : String := "\n\n[Content truncated due to length...]"

/-- The decode performed by the text-like branch:
`Buffer.from(base64Data, 'base64').toString('utf-8')`.  This is total — the
catch fallback around it in the source (returning the raw base64 text) is
unreachable because the decode never throws. -/
def b64ToUtf8 (data : String) : String :=
  String.mk (utf8Decode (b64Decode data.toList))

/-- Base64 of the UTF-8 bytes of a string — the `base64(s)` of the spec's
text-passthrough property. -/
def b64OfString (s : String) : String :=
  String.mk (b64Encode (utf8Encode s.toList))

/-- Embedding of `extractTextFromBase64`: dispatch on the declared MIME
type, PDF first (substring match), then image (always fails), then
text-like decode; the 50000-character cap sits inside the PDF branch. -/
def extractTextFromBase64 (pdfParse : List Nat → Except JsError PdfData)
    (base64Data : String) (mimeType : String) : Except JsError String :=
  if strIncludes mimeType "pdf" then
    match pdfParse (b64Decode base64Data.toList) with
    | .ok pdfData =>
      if pdfData.text.length > 50000 then
        .ok (String.mk (pdfData.text.toList.take 50000) ++ truncationSuffix)
      else .ok pdfData.text
    | .error e => .error (.err ("Failed to parse PDF: " ++ jsErrorMessage e))
  else if strIncludes mimeType "image" then
    .error (.err
      "Image documents require OCR which is not yet implemented. Please upload a PDF or text file.")
  else
    .ok (b64ToUtf8 base64Data)

/-- Every byte of an encoded string is below 256. -/
theorem utf8Encode_lt (l : List Char) : ∀ b ∈ utf8Encode l, b < 256 := by
  intro b hb
  rw [utf8Encode, List.mem_flatMap] at hb
  obtain ⟨c, _, hc⟩ := hb
  exact utf8EncodeChar_lt c b hc

/-- Decoding the base64 of the UTF-8 bytes of a string gives the string
back. -/
theorem b64ToUtf8_b64OfString (s : String) : b64ToUtf8 (b64OfString s) = s := by
  unfold b64ToUtf8 b64OfString
  have htl : (String.mk (b64Encode (utf8Encode s.toList))).toList =
      b64Encode (utf8Encode s.toList) := rfl
  rw [htl, b64Decode_b64Encode _ (utf8Encode_lt s.toList), utf8Decode_utf8Encode,
    stringMk_toList]

/-- The text-like branch of the extractor is the base64-to-UTF-8 decode,
applied whenever the MIME type mentions neither pdf nor image. -/
theorem extract_textlike (pdfParse : List Nat → Except JsError PdfData)
    (base64Data mimeType : String)
    (h1 : strIncludes mimeType "pdf" = false)
    (h2 : strIncludes mimeType "image" = false) :
    extractTextFromBase64 pdfParse base64Data mimeType = .ok (b64ToUtf8 base64Data) := by
  simp [extractTextFromBase64, h1, h2]

/-- Claim C9: extraction through the text-like branch inverts base64
encoding of a UTF-8 string: `extract(base64(s), "text/plain") = s`, and
likewise for `text/html`. -/
theorem extract_text_passthrough (s : String)
    (pdfParse : List Nat → Except JsError PdfData) :
    extractTextFromBase64 pdfParse (b64OfString s) "text/plain" = .ok s ∧
    extractTextFromBase64 pdfParse (b64OfString s) "text/html" = .ok s := by
  constructor <;>
    rw [extract_textlike pdfParse _ _ (by decide) (by decide), b64ToUtf8_b64OfString]

/-- Claim C8 (amended): for every payload and every MIME type that contains
`image` but not `pdf`, the extractor fails with the single
OCR-not-implemented error and never returns text.  (The `pdf` exclusion is
forced: the PDF substring check runs first.) -/
theorem extract_image_rejected (pdfParse : List Nat → Except JsError PdfData)
    (base64Data mimeType : String)
    (h1 : strIncludes mimeType "image" = true)
    (h2 : strIncludes mimeType "pdf" = false) :
    extractTextFromBase64 pdfParse base64Data mimeType =
      .error (.err
        "Image documents require OCR which is not yet implemented. Please upload a PDF or text file.") := by
  simp [extractTextFromBase64, h1, h2]

/-- Witness for the amended claim C8 at the MIME type image/png. -/
theorem extract_image_rejected_witness :
    strIncludes "image/png" "image" = true ∧ strIncludes "image/png" "pdf" = false ∧
    extractTextFromBase64 (fun _ => .error .nonError) "AAAA" "image/png" =
      .error (.err
        "Image documents require OCR which is not yet implemented. Please upload a PDF or text file.") :=
  ⟨by decide, by decide,
    extract_image_rejected (fun _ => .error .nonError) "AAAA" "image/png" (by decide) (by decide)⟩

/-- A pdf-parse oracle that succeeds with a short fixed text. -/
def pdfOkOracle : List Nat → Except JsError PdfData :=
  fun _ => .ok { text := "sample text", numpages := 3 }

/-- Counterexample to claim C8 as stated: the MIME type `image/pdf`
contains `image`, yet the extractor does not fail — the PDF branch is
checked first and shadows the image check, so with a succeeding PDF parse
the extractor returns text. -/
theorem extract_image_mime_not_always_rejected :
    strIncludes "image/pdf" "image" = true ∧
    extractTextFromBase64 pdfOkOracle "AAAA" "image/pdf" = .ok "sample text" := by
  constructor
  · decide
  · rfl

/-- Claim C3 (amended): the 50000-character cap is applied only inside the
PDF branch — a successfully parsed PDF text longer than 50000 characters is
truncated to exactly its first 50000 characters plus the literal suffix
(total length 50000 plus the suffix length), a shorter one is returned
unchanged — while the text-like branch returns the decoded text unchanged
at every length. -/
theorem extract_cap_pdf_branch_only :
    (∀ (pdfParse : List Nat → Except JsError PdfData) (base64Data mimeType : String) pd,
      strIncludes mimeType "pdf" = true →
      pdfParse (b64Decode base64Data.toList) = .ok pd →
      extractTextFromBase64 pdfParse base64Data mimeType =
        .ok (if pd.text.length > 50000
             then String.mk (pd.text.toList.take 50000) ++ truncationSuffix
             else pd.text)) ∧
    (∀ pd : PdfData, pd.text.length > 50000 →
      (String.mk (pd.text.toList.take 50000) ++ truncationSuffix).length =
        50000 + truncationSuffix.length) ∧
    (∀ (pdfParse : List Nat → Except JsError PdfData) (base64Data mimeType : String),
      strIncludes mimeType "pdf" = false → strIncludes mimeType "image" = false →
      extractTextFromBase64 pdfParse base64Data mimeType = .ok (b64ToUtf8 base64Data)) := by
  refine ⟨?_, ?_, ?_⟩
  · intro pdfParse base64Data mimeType pd h1 h2
    simp only [String.toList] at h2
    simp [extractTextFromBase64, h1, h2]
    split <;> rfl
  · intro pd hlen
    have h1 : (String.mk (pd.text.toList.take 50000)).length = 50000 := by
      have : pd.text.length = pd.text.toList.length := rfl
      simp only [String.length, List.length_take]
      omega
    rw [String.length_append, h1]
  · intro pdfParse base64Data mimeType h1 h2
    exact extract_textlike pdfParse base64Data mimeType h1 h2

/-- Witness for the amended claim C3: a short parsed PDF text comes back
unchanged, and the cap hypotheses are discharged at a concrete input. -/
theorem extract_cap_pdf_branch_only_witness :
    strIncludes "application/pdf" "pdf" = true ∧
    pdfOkOracle (b64Decode ("AAAA" : String).toList) =
      .ok { text := "sample text", numpages := 3 } ∧
    extractTextFromBase64 pdfOkOracle "AAAA" "application/pdf" =
      .ok (if ("sample text" : String).length > 50000
           then String.mk (("sample text" : String).toList.take 50000) ++ truncationSuffix
           else "sample text") :=
  ⟨by decide, rfl,
    extract_cap_pdf_branch_only.1 pdfOkOracle "AAAA" "application/pdf"
      { text := "sample text", numpages := 3 } (by decide) rfl⟩

/-- A text of 50001 identical characters. -/
def longText : String := String.mk (List.replicate 50001 'a')

/-- A pdf-parse oracle that always rejects (never reached by the text-like
branch). -/
def pdfFailOracle : List Nat → Except JsError PdfData := fun _ => .error .nonError

/-- Counterexample to claim C3 as stated: a text-like input whose decoded
text has 50001 characters is returned unchanged — its length stays 50001,
not 50000 plus the suffix length — so the cap is not applied uniformly to
every source type. -/
theorem extract_cap_not_uniform :
    extractTextFromBase64 pdfFailOracle (b64OfString longText) "text/plain" =
      .ok longText ∧
    longText.length = 50001 ∧
    50001 > 50000 ∧
    longText.length ≠ 50000 + truncationSuffix.length := by
  have hlen : longText.length = 50001 := by
    have h0 : longText.length = (List.replicate 50001 'a').length := rfl
    rw [h0, List.length_replicate]
  have hsuf : truncationSuffix.length = 38 := by decide
  refine ⟨?_, hlen, by norm_num, ?_⟩
  · rw [extract_textlike pdfFailOracle _ _ (by decide) (by decide), b64ToUtf8_b64OfString]
  · rw [hlen, hsuf]
    omega

/-! ## JSON values, serialization and parsing

The repository's normalizer ends in `JSON.parse`; this embeds a JSON value
type, `JSON.stringify` (`renderJson`, no whitespace, numbers restricted to
integers) and `JSON.parse` (`parseJsonList`), with a proved
parse-of-stringify roundtrip. -/

/-- A JSON value: null, boolean, integer number, string, array or object. -/
inductive Json where
  | null : Json
  | bool (b : Bool) : Json
  | num (n : Int) : Json
  | str (s : String) : Json
  | arr (items : List Json) : Json
  | obj (members : List (String × Json)) : Json
deriving Repr

mutual

/-- Node count of a JSON value, used as parser fuel. -/
def jsize : Json → Nat
  | .null => 1
  | .bool _ => 1
  | .num _ => 1
  | .str _ => 1
  | .arr items => 1 + jsizeList items
  | .obj members => 1 + jsizeMembers members

/-- Node count of an array's items. -/
def jsizeList : List Json → Nat
  | [] => 1
  | v :: vs => jsize v + jsizeList vs

/-- Node count of an object's members. -/
def jsizeMembers : List (String × Json) → Nat
  | [] => 1
  | (_, v) :: ms => jsize v + jsizeMembers ms

end

/-- Escaping of one character inside a JSON string literal, as
`JSON.stringify` performs it for the characters this model treats. -/
def escapeChar (c : Char) : List Char :=
  if c = dquote then [bslash, dquote]
  else if c = bslash then [bslash, bslash]
  else if c = '\n' then [bslash, 'n']
  else if c = '\t' then [bslash, 't']
  else if c = '\r' then [bslash, 'r']
  else [c]

/-- The escaped body of a JSON string literal. -/
def renderStringChars (cs : List Char) : List Char := cs.flatMap escapeChar

/-- A JSON string literal: quote, escaped body, quote. -/
def renderString (s : String) : List Char :=
  dquote :: renderStringChars s.toList ++ [dquote]

/-- The decimal digit character for a value below ten. -/
def digitChar (d : Nat) : Char := Char.ofNat (48 + d)

/-- Decimal digits of a natural number, most significant first. -/
def natDigits (n : Nat) : List Char :=
  if n < 10 then [digitChar n]
  else natDigits (n / 10) ++ [digitChar (n % 10)]
termination_by n
decreasing_by
  exact Nat.div_lt_self (by omega) (by omega)

/-- Decimal rendering of an integer. -/
def renderInt (i : Int) : List Char :=
  if i < 0 then '-' :: natDigits i.natAbs else natDigits i.toNat

mutual

/-- `JSON.stringify` of a JSON value (no whitespace). -/
def renderJson : Json → List Char
  | .null => 'n' :: ['u', 'l', 'l']
  | .bool true => 't' :: ['r', 'u', 'e']
  | .bool false => 'f' :: ['a', 'l', 's', 'e']
  | .num i => renderInt i
  | .str s => renderString s
  | .arr [] => ['[', ']']
  | .arr (v :: vs) => '[' :: (renderJson v ++ renderSeq vs) ++ [']']
  | .obj [] => [lbrace, rbrace]
  | .obj (m :: ms) => lbrace :: (renderMember m ++ renderMemberSeq ms) ++ [rbrace]

/-- The remaining items of an array, each preceded by a comma. -/
def renderSeq : List Json → List Char
  | [] => []
  | v :: vs => ',' :: renderJson v ++ renderSeq vs

/-- One object member: string key, colon, value. -/
def renderMember : String × Json → List Char
  | (k, v) => renderString k ++ ':' :: renderJson v

/-- The remaining members of an object, each preceded by a comma. -/
def renderMemberSeq : List (String × Json) → List Char
  | [] => []
  | m :: ms => ',' :: renderMember m ++ renderMemberSeq ms

end

/-- `JSON.stringify` at the string level. -/
def stringifyJson (v : Json) : String := String.mk (renderJson v)

/-- The whitespace characters `JSON.parse` skips between tokens. -/
def isJsonWs (c : Char) : Bool := c = ' ' || c = '\t' || c = '\n' || c = '\r'

/-- ASCII decimal digit test. -/
def isDigitChar (c : Char) : Bool := decide (48 ≤ c.toNat ∧ c.toNat ≤ 57)

/-- Value of a digit run, most significant first. -/
def digitsToNat (cs : List Char) : Nat :=
  cs.foldl (fun a c => a * 10 + (c.toNat - 48)) 0

/-- Unescaping of one character after a backslash in a JSON string
literal. -/
def unescapeChar (c : Char) : Option Char :=
  if c = dquote then some dquote
  else if c = bslash then some bslash
  else if c = '/' then some '/'
  else if c = 'n' then some '\n'
  else if c = 't' then some '\t'
  else if c = 'r' then some '\r'
  else if c = 'b' then some (Char.ofNat 8)
  else if c = 'f' then some (Char.ofNat 12)
  else none

/-- Parses the body of a JSON string literal up to and including the
closing quote, returning the unescaped characters and the remainder. -/
def parseStringChars : List Char → Option (List Char × List Char)
  | [] => none
  | c :: rest =>
    if c = dquote then some ([], rest)
    else if c = bslash then
      match rest with
      | [] => none
      | e :: rest2 =>
        match unescapeChar e with
        | none => none
        | some u =>
          match parseStringChars rest2 with
          | none => none
          | some (cs, r) => some (u :: cs, r)
    else
      match parseStringChars rest with
      | none => none
      | some (cs, r) => some (c :: cs, r)

mutual

/-- Fuel-indexed JSON value parser: skips leading whitespace, dispatches on
the first character, returns the value and the unconsumed remainder. -/
def parseJsonVal : Nat → List Char → Option (Json × List Char)
  | 0, _ => none
  | fuel + 1, cs =>
    match cs.dropWhile isJsonWs with
    | [] => none
    | c :: rest =>
      if c = 'n' then
        match rest with
        | 'u' :: 'l' :: 'l' :: r => some (.null, r)
        | _ => none
      else if c = 't' then
        match rest with
        | 'r' :: 'u' :: 'e' :: r => some (.bool true, r)
        | _ => none
      else if c = 'f' then
        match rest with
        | 'a' :: 'l' :: 's' :: 'e' :: r => some (.bool false, r)
        | _ => none
      else if c = dquote then
        match parseStringChars rest with
        | none => none
        | some (body, r) => some (.str (String.mk body), r)
      else if c = '-' then
        match rest.takeWhile isDigitChar with
        | [] => none
        | ds => some (.num (-(digitsToNat ds : Int)), rest.dropWhile isDigitChar)
      else if isDigitChar c then
        some (.num (digitsToNat ((c :: rest).takeWhile isDigitChar) : Int),
          (c :: rest).dropWhile isDigitChar)
      else if c = '[' then
        match rest.dropWhile isJsonWs with
        | ']' :: r => some (.arr [], r)
        | _ =>
          match parseElems fuel rest with
          | none => none
          | some (vs, r) => some (.arr vs, r)
      else if c = lbrace then
        match rest.dropWhile isJsonWs with
        | [] => none
        | c2 :: r =>
          if c2 = rbrace then some (.obj [], r)
          else
            match parseMembers fuel rest with
            | none => none
            | some (ms, r2) => some (.obj ms, r2)
      else none

/-- Parses one or more comma-separated values followed by a closing
bracket. -/
def parseElems : Nat → List Char → Option (List Json × List Char)
  | 0, _ => none
  | fuel + 1, cs =>
    match parseJsonVal fuel cs with
    | none => none
    | some (v, r) =>
      match r.dropWhile isJsonWs with
      | ',' :: r2 =>
        match parseElems fuel r2 with
        | none => none
        | some (vs, r3) => some (v :: vs, r3)
      | ']' :: r2 => some ([v], r2)
      | _ => none

/-- Parses one or more comma-separated string-key members followed by a
closing brace. -/
def parseMembers : Nat → List Char → Option (List (String × Json) × List Char)
  | 0, _ => none
  | fuel + 1, cs =>
    match cs.dropWhile isJsonWs with
    | [] => none
    | c :: rest =>
      if c = dquote then
        match parseStringChars rest with
        | none => none
        | some (k, r) =>
          match r.dropWhile isJsonWs with
          | ':' :: r2 =>
            match parseJsonVal fuel r2 with
            | none => none
            | some (v, r3) =>
              match r3.dropWhile isJsonWs with
              | [] => none
              | ',' :: r4 =>
                match parseMembers fuel r4 with
                | none => none
                | some (ms, r5) => some ((String.mk k, v) :: ms, r5)
              | c5 :: r4 =>
                if c5 = rbrace then some ([(String.mk k, v)], r4) else none
          | _ => none
      else none

end

/-- `JSON.parse`: parse a whole character list as one JSON value, allowing
surrounding whitespace only; fuel is one more than the input length, enough
for any value the input can denote. -/
def parseJsonList (cs : List Char) : Option Json :=
  match parseJsonVal (cs.length + 1) cs with
  | none => none
  | some (v, r) => if (r.dropWhile isJsonWs).isEmpty then some v else none

/-- `JSON.parse` at the string level. -/
def parseJsonString (s : String) : Option Json := parseJsonList s.toList

/-- The code point of a digit character. -/
theorem digitChar_toNat (d : Nat) (h : d < 10) : (digitChar d).toNat = 48 + d := by
  interval_cases d <;> decide

/-- Digit characters pass the digit test. -/
theorem isDigitChar_digitChar (d : Nat) (h : d < 10) : isDigitChar (digitChar d) = true := by
  interval_cases d <;> decide

/-- A digit rendering is never empty. -/
theorem natDigits_ne_nil (n : Nat) : natDigits n ≠ [] := by
  unfold natDigits
  split <;> simp

/-- Every character of a digit rendering is a digit. -/
theorem natDigits_digits (n : Nat) : ∀ c ∈ natDigits n, isDigitChar c = true := by
  induction n using natDigits.induct with
  | case1 n h =>
    rw [natDigits, if_pos h]
    intro c hc
    rw [List.mem_singleton] at hc
    subst hc
    exact isDigitChar_digitChar n h
  | case2 n h ih =>
    rw [natDigits, if_neg h]
    intro c hc
    rcases List.mem_append.1 hc with hc1 | hc2
    · exact ih c hc1
    · rw [List.mem_singleton] at hc2
      subst hc2
      exact isDigitChar_digitChar _ (Nat.mod_lt _ (by omega))

/-- Folding the digit-accumulation step over a rendering of `n` appends `n`
to the accumulated value. -/
theorem natDigits_foldl (n : Nat) : ∀ a : Nat,
    (natDigits n).foldl (fun a c => a * 10 + (c.toNat - 48)) a =
      a * 10 ^ (natDigits n).length + n := by
  induction n using natDigits.induct with
  | case1 n h =>
    intro a
    rw [natDigits, if_pos h]
    simp only [List.foldl_cons, List.foldl_nil, List.length_singleton, pow_one]
    rw [digitChar_toNat n h]
    omega
  | case2 n h ih =>
    intro a
    rw [natDigits, if_neg h]
    rw [List.foldl_append, ih a]
    simp only [List.foldl_cons, List.foldl_nil, List.length_append,
      List.length_singleton]
    rw [digitChar_toNat _ (Nat.mod_lt _ (by omega)), pow_succ]
    have hd : 48 + n % 10 - 48 = n % 10 := by omega
    rw [hd]
    have hr : (a * 10 ^ (natDigits (n / 10)).length + n / 10) * 10 + n % 10 =
        a * (10 ^ (natDigits (n / 10)).length * 10) + (n / 10 * 10 + n % 10) := by
      ring
    rw [hr]
    have hm : n / 10 * 10 + n % 10 = n := by omega
    rw [hm]

/-- Reading back the decimal rendering of a natural number. -/
theorem digitsToNat_natDigits (n : Nat) : digitsToNat (natDigits n) = n := by
  unfold digitsToNat
  rw [natDigits_foldl n 0]
  simp

/-- Head predicate: the list is empty or its head fails `p`. -/
def headNotP (p : Char → Bool) : List Char → Prop
  | [] => True
  | c :: _ => p c = false

/-- `takeWhile` and `dropWhile` split an append exactly at the boundary
where the left part all satisfies `p` and the right part does not start
with a satisfying character. -/
theorem takeWhile_dropWhile_append (p : Char → Bool) (l rest : List Char)
    (hl : ∀ c ∈ l, p c = true) (hr : headNotP p rest) :
    (l ++ rest).takeWhile p = l ∧ (l ++ rest).dropWhile p = rest := by
  induction l with
  | nil =>
    simp only [List.nil_append]
    cases rest with
    | nil => simp
    | cons c tl =>
      simp only [headNotP] at hr
      simp [List.takeWhile_cons, List.dropWhile_cons, hr]
  | cons c tl ih =>
    have hc : p c = true := hl c (by simp)
    have htl : ∀ x ∈ tl, p x = true := fun x hx => hl x (by simp [hx])
    obtain ⟨h1, h2⟩ := ih htl
    simp [List.takeWhile_cons, List.dropWhile_cons, hc, h1, h2]

/-- The backslash character is not the quote character. -/
theorem bslash_ne_dquote : bslash ≠ dquote := by decide

/-- Unescaping the characters the escaper emits. -/
theorem unescape_facts :
    unescapeChar dquote = some dquote ∧ unescapeChar bslash = some bslash ∧
    unescapeChar 'n' = some '\n' ∧ unescapeChar 't' = some '\t' ∧
    unescapeChar 'r' = some '\r' := by
  refine ⟨by decide, by decide, by decide, by decide, by decide⟩

/-- The escaper on each escaped character. -/
theorem escape_facts :
    escapeChar dquote = [bslash, dquote] ∧ escapeChar bslash = [bslash, bslash] ∧
    escapeChar '\n' = [bslash, 'n'] ∧ escapeChar '\t' = [bslash, 't'] ∧
    escapeChar '\r' = [bslash, 'r'] := by
  refine ⟨by decide, by decide, by decide, by decide, by decide⟩

/-- Parsing a rendered string-literal body recovers the original
characters. -/
theorem parseStringChars_render (cs rest : List Char) :
    parseStringChars (renderStringChars cs ++ (dquote :: rest)) = some (cs, rest) := by
  induction cs with
  | nil =>
    simp only [renderStringChars, List.flatMap_nil, List.nil_append]
    rw [parseStringChars.eq_def]
    simp
  | cons c tl ih =>
    have hstep : renderStringChars (c :: tl) = escapeChar c ++ renderStringChars tl := by
      simp [renderStringChars]
    rw [hstep, List.append_assoc]
    by_cases h1 : c = dquote
    · subst h1
      rw [escape_facts.1]
      simp only [List.cons_append, List.nil_append]
      rw [parseStringChars, if_neg bslash_ne_dquote, if_pos rfl, unescape_facts.1, ih]
    · by_cases h2 : c = bslash
      · subst h2
        rw [escape_facts.2.1]
        simp only [List.cons_append, List.nil_append]
        rw [parseStringChars, if_neg bslash_ne_dquote, if_pos rfl, unescape_facts.2.1, ih]
      · by_cases h3 : c = '\n'
        · subst h3
          rw [escape_facts.2.2.1]
          simp only [List.cons_append, List.nil_append]
          rw [parseStringChars, if_neg bslash_ne_dquote, if_pos rfl,
            unescape_facts.2.2.1, ih]
        · by_cases h4 : c = '\t'
          · subst h4
            rw [escape_facts.2.2.2.1]
            simp only [List.cons_append, List.nil_append]
            rw [parseStringChars, if_neg bslash_ne_dquote, if_pos rfl,
              unescape_facts.2.2.2.1, ih]
          · by_cases h5 : c = '\r'
            · subst h5
              rw [escape_facts.2.2.2.2]
              simp only [List.cons_append, List.nil_append]
              rw [parseStringChars, if_neg bslash_ne_dquote, if_pos rfl,
                unescape_facts.2.2.2.2, ih]
            · rw [escapeChar, if_neg h1, if_neg h2, if_neg h3, if_neg h4, if_neg h5]
              simp only [List.cons_append, List.nil_append]
              rw [parseStringChars.eq_def]
              simp [h1, h2, ih]

/-- A JSON value occupies at least one node. -/
theorem jsize_pos (v : Json) : 1 ≤ jsize v := by
  cases v <;> simp [jsize]

/-- Array items occupy at least one node. -/
theorem jsizeList_pos (xs : List Json) : 1 ≤ jsizeList xs := by
  cases xs with
  | nil => simp [jsizeList]
  | cons x tl =>
    have := jsize_pos x
    simp only [jsizeList]
    omega

/-- Object members occupy at least one node. -/
theorem jsizeMembers_pos (ms : List (String × Json)) : 1 ≤ jsizeMembers ms := by
  cases ms with
  | nil => simp [jsizeMembers]
  | cons m tl =>
    obtain ⟨k, v⟩ := m
    have := jsize_pos v
    simp only [jsizeMembers]
    omega

/-- A digit character is not whitespace and not any of the keyword, quote
or minus dispatch characters. -/
theorem digit_head_facts (c : Char) (h : isDigitChar c = true) :
    isJsonWs c = false ∧ c ≠ 'n' ∧ c ≠ 't' ∧ c ≠ 'f' ∧ c ≠ dquote ∧ c ≠ '-' ∧ c ≠ ']' := by
  have hb : 48 ≤ c.toNat ∧ c.toNat ≤ 57 := of_decide_eq_true h
  refine ⟨?_, ?_, ?_, ?_, ?_, ?_, ?_⟩
  · have e1 : c ≠ ' ' := fun he => by subst he; revert hb; decide
    have e2 : c ≠ '\t' := fun he => by subst he; revert hb; decide
    have e3 : c ≠ '\n' := fun he => by subst he; revert hb; decide
    have e4 : c ≠ '\r' := fun he => by subst he; revert hb; decide
    simp [isJsonWs, e1, e2, e3, e4]
  all_goals exact fun he => by subst he; revert hb; decide

/-- The first character of a rendered JSON value: never whitespace and
never a closing bracket. -/
theorem renderJson_head (v : Json) :
    ∃ c tl, renderJson v = c :: tl ∧ isJsonWs c = false ∧ c ≠ ']' := by
  cases v with
  | null => exact ⟨'n', _, rfl, by decide, by decide⟩
  | bool b =>
    cases b
    · exact ⟨'f', _, rfl, by decide, by decide⟩
    · exact ⟨'t', _, rfl, by decide, by decide⟩
  | num i =>
    have hr : renderJson (.num i) = renderInt i := rfl
    rw [hr]
    unfold renderInt
    by_cases hi : i < 0
    · rw [if_pos hi]
      exact ⟨'-', _, rfl, by decide, by decide⟩
    · rw [if_neg hi]
      obtain ⟨c, tl, hct⟩ := List.exists_cons_of_ne_nil (natDigits_ne_nil i.toNat)
      have hc : isDigitChar c = true := natDigits_digits _ c (by rw [hct]; simp)
      obtain ⟨hws, _, _, _, _, _, hnb⟩ := digit_head_facts c hc
      exact ⟨c, tl, hct, hws, hnb⟩
  | str s => exact ⟨dquote, _, rfl, by decide, by decide⟩
  | arr items =>
    cases items
    · exact ⟨'[', _, rfl, by decide, by decide⟩
    · exact ⟨'[', _, rfl, by decide, by decide⟩
  | obj members =>
    cases members
    · exact ⟨lbrace, _, rfl, by decide, by decide⟩
    · exact ⟨lbrace, _, rfl, by decide, by decide⟩

/-- Parsing inverts rendering: with enough fuel, a rendered value followed
by any remainder that does not start with a digit parses back to the value
with exactly that remainder, and likewise for array-item and object-member
sequences. -/
theorem parse_render (fuel : Nat) :
    (∀ v rest, jsize v ≤ fuel → headNotP isDigitChar rest →
      parseJsonVal fuel (renderJson v ++ rest) = some (v, rest)) ∧
    (∀ v vs rest, jsize v + jsizeList vs ≤ fuel →
      parseElems fuel (renderJson v ++ (renderSeq vs ++ (']' :: rest))) = some (v :: vs, rest)) ∧
    (∀ k v ms rest, jsize v + jsizeMembers ms ≤ fuel →
      parseMembers fuel (renderMember (k, v) ++ (renderMemberSeq ms ++ (rbrace :: rest))) =
        some ((k, v) :: ms, rest)) := by
  induction fuel with
  | zero =>
    refine ⟨?_, ?_, ?_⟩
    · intro v rest hf _
      exact absurd hf (by have := jsize_pos v; omega)
    · intro v vs rest hf
      exact absurd hf (by have := jsize_pos v; have := jsizeList_pos vs; omega)
    · intro k v ms rest hf
      exact absurd hf (by have := jsize_pos v; have := jsizeMembers_pos ms; omega)
  | succ fuel ih =>
    obtain ⟨ihV, ihE, ihM⟩ := ih
    refine ⟨?_, ?_, ?_⟩
    · intro v rest hf hnd
      cases v with
      | null => rfl
      | bool b => cases b <;> rfl
      | num i =>
        have hr : renderJson (.num i) ++ rest = renderInt i ++ rest := rfl
        rw [hr]
        unfold renderInt
        by_cases hi : i < 0
        · rw [if_pos hi, List.cons_append]
          obtain ⟨htake, hdrop⟩ :=
            takeWhile_dropWhile_append isDigitChar (natDigits i.natAbs) rest
              (natDigits_digits _) hnd
          have h1 : parseJsonVal (fuel + 1) ('-' :: (natDigits i.natAbs ++ rest)) =
              match (natDigits i.natAbs ++ rest).takeWhile isDigitChar with
              | [] => none
              | ds => some (.num (-(digitsToNat ds : Int)),
                  (natDigits i.natAbs ++ rest).dropWhile isDigitChar) := rfl
          rw [h1, htake, hdrop]
          obtain ⟨c0, tl0, h0⟩ := List.exists_cons_of_ne_nil (natDigits_ne_nil i.natAbs)
          rw [h0]
          have h2 : (match c0 :: tl0 with
              | [] => (none : Option (Json × List Char))
              | ds => some (.num (-(digitsToNat ds : Int)), rest)) =
              some (.num (-(digitsToNat (c0 :: tl0) : Int)), rest) := rfl
          rw [h2, ← h0, digitsToNat_natDigits]
          have h3 : (-(i.natAbs : Int)) = i := by omega
          rw [h3]
        · rw [if_neg hi]
          obtain ⟨c0, tl0, h0⟩ := List.exists_cons_of_ne_nil (natDigits_ne_nil i.toNat)
          have hc0 : isDigitChar c0 = true := natDigits_digits _ c0 (by rw [h0]; simp)
          obtain ⟨hws, hn, ht, hf2, hq, hm, _⟩ := digit_head_facts c0 hc0
          obtain ⟨htake, hdrop⟩ :=
            takeWhile_dropWhile_append isDigitChar (natDigits i.toNat) rest
              (natDigits_digits _) hnd
          rw [h0] at htake hdrop ⊢
          rw [List.cons_append] at htake hdrop ⊢
          have hdrop2 : List.dropWhile isDigitChar (tl0 ++ rest) = rest := by
            simp only [List.dropWhile_cons, hc0, if_true] at hdrop
            exact hdrop
          rw [parseJsonVal.eq_def]
          simp [hws, hn, ht, hf2, hq, hm, hc0, htake, hdrop, hdrop2]
          rw [← h0, digitsToNat_natDigits]
          have h3 : ((i.toNat : Nat) : Int) = i := by omega
          rw [h3]
      | str s =>
        have hEq : renderJson (.str s) ++ rest =
            dquote :: (renderStringChars s.toList ++ (dquote :: rest)) := by
          simp [renderJson, renderString]
        rw [hEq]
        have h1 : parseJsonVal (fuel + 1)
            (dquote :: (renderStringChars s.toList ++ (dquote :: rest))) =
            match parseStringChars (renderStringChars s.toList ++ (dquote :: rest)) with
            | none => none
            | some (body, r) => some (.str (String.mk body), r) := rfl
        rw [h1, parseStringChars_render]
        rfl
      | arr items =>
        cases items with
        | nil => rfl
        | cons w ws =>
          have hsz : jsize w + jsizeList ws ≤ fuel := by
            have h := hf
            simp only [jsize, jsizeList] at h
            omega
          have hEq : renderJson (.arr (w :: ws)) ++ rest =
              '[' :: (renderJson w ++ (renderSeq ws ++ (']' :: rest))) := by
            simp [renderJson, List.append_assoc]
          rw [hEq]
          obtain ⟨c, tl, hct, hws, hne⟩ := renderJson_head w
          have h1 : parseJsonVal (fuel + 1)
              ('[' :: (renderJson w ++ (renderSeq ws ++ (']' :: rest)))) =
              match (renderJson w ++ (renderSeq ws ++ (']' :: rest))).dropWhile isJsonWs with
              | ']' :: r => some (.arr [], r)
              | _ =>
                match parseElems fuel (renderJson w ++ (renderSeq ws ++ (']' :: rest))) with
                | none => none
                | some (vs, r) => some (.arr vs, r) := rfl
          rw [h1]
          have hdw : (renderJson w ++ (renderSeq ws ++ (']' :: rest))).dropWhile isJsonWs =
              renderJson w ++ (renderSeq ws ++ (']' :: rest)) := by
            rw [hct, List.cons_append, List.dropWhile_cons, hws]
            simp
          rw [hdw, ihE w ws rest hsz]
          rw [hct, List.cons_append]
          have h2 : (match c :: (tl ++ (renderSeq ws ++ (']' :: rest))) with
              | ']' :: r => some (Json.arr [], r)
              | _ => some (Json.arr (w :: ws), rest)) = some (Json.arr (w :: ws), rest) := by
            have h3 : c :: (tl ++ (renderSeq ws ++ (']' :: rest))) ≠ ']' :: (tl ++ (renderSeq ws ++ (']' :: rest))) := by
              simp [hne]
            split
            · rename_i heq
              exfalso
              rw [List.cons.injEq] at heq
              exact hne heq.1
            · rfl
          rw [h2]
      | obj members =>
        cases members with
        | nil => rfl
        | cons m ms =>
          obtain ⟨k, w⟩ := m
          have hsz : jsize w + jsizeMembers ms ≤ fuel := by
            have h := hf
            simp only [jsize, jsizeMembers] at h
            omega
          have hEq : renderJson (.obj ((k, w) :: ms)) ++ rest =
              lbrace :: (renderMember (k, w) ++ (renderMemberSeq ms ++ (rbrace :: rest))) := by
            simp [renderJson, List.append_assoc]
          rw [hEq]
          have hm2 : renderMember (k, w) ++ (renderMemberSeq ms ++ (rbrace :: rest)) =
              dquote :: ((renderStringChars k.toList ++ [dquote]) ++
                (':' :: (renderJson w ++ (renderMemberSeq ms ++ (rbrace :: rest))))) := by
            simp [renderMember, renderString, List.append_assoc]
          have h1 : parseJsonVal (fuel + 1)
              (lbrace :: (renderMember (k, w) ++ (renderMemberSeq ms ++ (rbrace :: rest)))) =
              match (renderMember (k, w) ++
                  (renderMemberSeq ms ++ (rbrace :: rest))).dropWhile isJsonWs with
              | [] => none
              | c2 :: r =>
                if c2 = rbrace then some (.obj [], r)
                else
                  match parseMembers fuel (renderMember (k, w) ++
                      (renderMemberSeq ms ++ (rbrace :: rest))) with
                  | none => none
                  | some (ms2, r2) => some (.obj ms2, r2) := rfl
          rw [h1]
          have hdw : (renderMember (k, w) ++
              (renderMemberSeq ms ++ (rbrace :: rest))).dropWhile isJsonWs =
              dquote :: ((renderStringChars k.toList ++ [dquote]) ++
                (':' :: (renderJson w ++ (renderMemberSeq ms ++ (rbrace :: rest))))) := by
            rw [hm2, List.dropWhile_cons]
            simp [(by decide : isJsonWs dquote = false)]
          rw [hdw]
          have h2 : (match dquote :: ((renderStringChars k.toList ++ [dquote]) ++
                (':' :: (renderJson w ++ (renderMemberSeq ms ++ (rbrace :: rest))))) with
              | ([] : List Char) => (none : Option (Json × List Char))
              | c2 :: r =>
                if c2 = rbrace then some (.obj [], r)
                else
                  match parseMembers fuel (renderMember (k, w) ++
                      (renderMemberSeq ms ++ (rbrace :: rest))) with
                  | none => none
                  | some (ms2, r2) => some (.obj ms2, r2)) =
              (if dquote = rbrace then some (.obj [], (renderStringChars k.toList ++ [dquote]) ++
                (':' :: (renderJson w ++ (renderMemberSeq ms ++ (rbrace :: rest)))))
               else
                match parseMembers fuel (renderMember (k, w) ++
                    (renderMemberSeq ms ++ (rbrace :: rest))) with
                | none => none
                | some (ms2, r2) => some (.obj ms2, r2)) := rfl
          rw [h2, if_neg (by decide : ¬dquote = rbrace), ihM k w ms rest hsz]
    · intro v vs rest hf
      have hv : jsize v ≤ fuel := by
        have := jsizeList_pos vs
        omega
      have hnd1 : headNotP isDigitChar (renderSeq vs ++ (']' :: rest)) := by
        cases vs with
        | nil =>
          simp only [renderSeq, List.nil_append, headNotP]
          decide
        | cons w ws =>
          simp only [renderSeq, List.cons_append, headNotP]
          decide
      have h1 : parseElems (fuel + 1) (renderJson v ++ (renderSeq vs ++ (']' :: rest))) =
          match parseJsonVal fuel (renderJson v ++ (renderSeq vs ++ (']' :: rest))) with
          | none => none
          | some (w, r) =>
            match r.dropWhile isJsonWs with
            | ',' :: r2 =>
              match parseElems fuel r2 with
              | none => none
              | some (ws2, r3) => some (w :: ws2, r3)
            | ']' :: r2 => some ([w], r2)
            | _ => none := rfl
      rw [h1, ihV v (renderSeq vs ++ (']' :: rest)) hv hnd1]
      cases vs with
      | nil => rfl
      | cons w ws =>
        have hsz2 : jsize w + jsizeList ws ≤ fuel := by
          have := jsize_pos v
          simp only [jsizeList] at hf
          omega
        have hEq : renderSeq (w :: ws) ++ (']' :: rest) =
            ',' :: (renderJson w ++ (renderSeq ws ++ (']' :: rest))) := by
          simp [renderSeq, List.append_assoc]
        rw [hEq]
        have h2 : (match some (v, ',' :: (renderJson w ++ (renderSeq ws ++ (']' :: rest)))) with
            | none => (none : Option (List Json × List Char))
            | some (w2, r) =>
              match r.dropWhile isJsonWs with
              | ',' :: r2 =>
                match parseElems fuel r2 with
                | none => none
                | some (ws2, r3) => some (w2 :: ws2, r3)
              | ']' :: r2 => some ([w2], r2)
              | _ => none) =
            match parseElems fuel (renderJson w ++ (renderSeq ws ++ (']' :: rest))) with
            | none => none
            | some (ws2, r3) => some (v :: ws2, r3) := rfl
        rw [h2, ihE w ws rest hsz2]
    · intro k v ms rest hf
      have hv : jsize v ≤ fuel := by
        have := jsizeMembers_pos ms
        omega
      have hm2 : renderMember (k, v) ++ (renderMemberSeq ms ++ (rbrace :: rest)) =
          dquote :: (renderStringChars k.toList ++
            (dquote :: (':' :: (renderJson v ++ (renderMemberSeq ms ++ (rbrace :: rest)))))) := by
        simp [renderMember, renderString, List.append_assoc]
      rw [hm2]
      have h1 : parseMembers (fuel + 1)
          (dquote :: (renderStringChars k.toList ++
            (dquote :: (':' :: (renderJson v ++ (renderMemberSeq ms ++ (rbrace :: rest))))))) =
          match parseStringChars (renderStringChars k.toList ++
              (dquote :: (':' :: (renderJson v ++ (renderMemberSeq ms ++ (rbrace :: rest)))))) with
          | none => none
          | some (k2, r) =>
            match r.dropWhile isJsonWs with
            | ':' :: r2 =>
              match parseJsonVal fuel r2 with
              | none => none
              | some (w, r3) =>
                match r3.dropWhile isJsonWs with
                | [] => none
                | ',' :: r4 =>
                  match parseMembers fuel r4 with
                  | none => none
                  | some (ms2, r5) => some ((String.mk k2, w) :: ms2, r5)
                | c5 :: r4 =>
                  if c5 = rbrace then some ([(String.mk k2, w)], r4) else none
            | _ => none := rfl
      rw [h1, parseStringChars_render]
      have hnd1 : headNotP isDigitChar (renderMemberSeq ms ++ (rbrace :: rest)) := by
        cases ms with
        | nil =>
          simp only [renderMemberSeq, List.nil_append, headNotP]
          decide
        | cons m2 ms2 =>
          simp only [renderMemberSeq, List.cons_append, headNotP]
          decide
      have h2 : (match some (k.toList, ':' :: (renderJson v ++ (renderMemberSeq ms ++ (rbrace :: rest)))) with
          | none => (none : Option (List (String × Json) × List Char))
          | some (k2, r) =>
            match r.dropWhile isJsonWs with
            | ':' :: r2 =>
              match parseJsonVal fuel r2 with
              | none => none
              | some (w, r3) =>
                match r3.dropWhile isJsonWs with
                | [] => none
                | ',' :: r4 =>
                  match parseMembers fuel r4 with
                  | none => none
                  | some (ms2, r5) => some ((String.mk k2, w) :: ms2, r5)
                | c5 :: r4 =>
                  if c5 = rbrace then some ([(String.mk k2, w)], r4) else none
            | _ => none) =
          match parseJsonVal fuel (renderJson v ++ (renderMemberSeq ms ++ (rbrace :: rest))) with
          | none => none
          | some (w, r3) =>
            match r3.dropWhile isJsonWs with
            | [] => none
            | ',' :: r4 =>
              match parseMembers fuel r4 with
              | none => none
              | some (ms2, r5) => some ((String.mk k.toList, w) :: ms2, r5)
            | c5 :: r4 =>
              if c5 = rbrace then some ([(String.mk k.toList, w)], r4) else none := rfl
      rw [h2, ihV v (renderMemberSeq ms ++ (rbrace :: rest)) hv hnd1]
      cases ms with
      | nil => rfl
      | cons m2 ms2 =>
        obtain ⟨k2, v2⟩ := m2
        have hsz2 : jsize v2 + jsizeMembers ms2 ≤ fuel := by
          have := jsize_pos v
          simp only [jsizeMembers] at hf
          omega
        have hEq : renderMemberSeq ((k2, v2) :: ms2) ++ (rbrace :: rest) =
            ',' :: (renderMember (k2, v2) ++ (renderMemberSeq ms2 ++ (rbrace :: rest))) := by
          simp [renderMemberSeq, List.append_assoc]
        rw [hEq]
        have h3 : (match some (v, ',' :: (renderMember (k2, v2) ++ (renderMemberSeq ms2 ++ (rbrace :: rest)))) with
            | none => (none : Option (List (String × Json) × List Char))
            | some (w, r3) =>
              match r3.dropWhile isJsonWs with
              | [] => none
              | ',' :: r4 =>
                match parseMembers fuel r4 with
                | none => none
                | some (ms3, r5) => some ((String.mk k.toList, w) :: ms3, r5)
              | c5 :: r4 =>
                if c5 = rbrace then some ([(String.mk k.toList, w)], r4) else none) =
            match parseMembers fuel (renderMember (k2, v2) ++ (renderMemberSeq ms2 ++ (rbrace :: rest))) with
            | none => none
            | some (ms3, r5) => some ((String.mk k.toList, v) :: ms3, r5) := rfl
        rw [h3, ihM k2 v2 ms2 rest hsz2]
        rfl

/-- The decimal rendering of a number is nonempty. -/
theorem renderInt_length_pos (i : Int) : 1 ≤ (renderInt i).length := by
  unfold renderInt
  split
  · simp
  · have := natDigits_ne_nil i.toNat
    cases h : natDigits i.toNat with
    | nil => exact absurd h this
    | cons c tl => simp [h]

/-- The node count of a value is bounded by the length of its rendering
plus one (stated for all three syntactic classes, by induction on a
dominating node count). -/
theorem jsize_le_render (n : Nat) :
    (∀ v, jsize v ≤ n → jsize v ≤ (renderJson v).length) ∧
    (∀ xs, jsizeList xs ≤ n → jsizeList xs ≤ (renderSeq xs).length + 1) ∧
    (∀ ms, jsizeMembers ms ≤ n → jsizeMembers ms ≤ (renderMemberSeq ms).length + 1) := by
  induction n with
  | zero =>
    refine ⟨?_, ?_, ?_⟩
    · intro v h
      exact absurd h (by have := jsize_pos v; omega)
    · intro xs h
      exact absurd h (by have := jsizeList_pos xs; omega)
    · intro ms h
      exact absurd h (by have := jsizeMembers_pos ms; omega)
  | succ n ih =>
    obtain ⟨ihA, ihB, ihC⟩ := ih
    refine ⟨?_, ?_, ?_⟩
    · intro v hv
      cases v with
      | null => simp [jsize, renderJson]
      | bool b => cases b <;> simp [jsize, renderJson]
      | num i =>
        have h1 : renderJson (.num i) = renderInt i := rfl
        have := renderInt_length_pos i
        simp only [jsize, h1]
        omega
      | str s => simp [jsize, renderJson, renderString]
      | arr items =>
        cases items with
        | nil => simp [jsize, jsizeList, renderJson]
        | cons w ws =>
          have hw : jsize w ≤ n := by
            have := jsizeList_pos ws
            have := jsize_pos w
            simp only [jsize, jsizeList] at hv
            omega
          have hws : jsizeList ws ≤ n := by
            have := jsize_pos w
            simp only [jsize, jsizeList] at hv
            omega
          have hA := ihA w hw
          have hB := ihB ws hws
          simp only [jsize, jsizeList, renderJson, List.length_append, List.length_cons,
            List.length_singleton] at hA hB ⊢
          omega
      | obj members =>
        cases members with
        | nil => simp [jsize, jsizeMembers, renderJson]
        | cons m ms =>
          obtain ⟨k, w⟩ := m
          have hw : jsize w ≤ n := by
            have := jsizeMembers_pos ms
            have := jsize_pos w
            simp only [jsize, jsizeMembers] at hv
            omega
          have hms : jsizeMembers ms ≤ n := by
            have := jsize_pos w
            simp only [jsize, jsizeMembers] at hv
            omega
          have hA := ihA w hw
          have hC := ihC ms hms
          simp only [jsize, jsizeMembers, renderJson, renderMember, renderString,
            List.length_append, List.length_cons, List.length_singleton] at hA hC ⊢
          omega
    · intro xs hxs
      cases xs with
      | nil => simp [jsizeList, renderSeq]
      | cons w ws =>
        have hw : jsize w ≤ n := by
          have := jsizeList_pos ws
          simp only [jsizeList] at hxs
          omega
        have hws : jsizeList ws ≤ n := by
          have := jsize_pos w
          simp only [jsizeList] at hxs
          omega
        have hA := ihA w hw
        have hB := ihB ws hws
        simp only [jsizeList, renderSeq, List.length_append, List.length_cons] at hA hB ⊢
        omega
    · intro ms hms
      cases ms with
      | nil => simp [jsizeMembers, renderMemberSeq]
      | cons m tl =>
        obtain ⟨k, w⟩ := m
        have hw : jsize w ≤ n := by
          have := jsizeMembers_pos tl
          simp only [jsizeMembers] at hms
          omega
        have htl : jsizeMembers tl ≤ n := by
          have := jsize_pos w
          simp only [jsizeMembers] at hms
          omega
        have hA := ihA w hw
        have hC := ihC tl htl
        simp only [jsizeMembers, renderMemberSeq, renderMember, renderString,
          List.length_append, List.length_cons, List.length_singleton] at hA hC ⊢
        omega

/-- Parsing a rendered value with the standard fuel succeeds and returns
exactly that value. -/
theorem parseJsonList_render (v : Json) : parseJsonList (renderJson v) = some v := by
  have hb : jsize v ≤ (renderJson v).length + 1 := by
    have := (jsize_le_render (jsize v)).1 v le_rfl
    omega
  have h := (parse_render ((renderJson v).length + 1)).1 v [] hb trivial
  rw [List.append_nil] at h
  unfold parseJsonList
  rw [h]
  simp

/-! ## Response normalizer

Embedding of `cleanJsonResponse` and `parseAIResponse`
(`ai-provider.ts` lines 39-80). -/

/-- The whitespace characters removed by JavaScript `String.prototype.trim`
(the ASCII ones; exotic Unicode space characters are outside this model). -/
def isTrimWs (c : Char) : Bool :=
  c = ' ' || c = '\t' || c = '\n' || c = '\r' || c = Char.ofNat 12 || c = Char.ofNat 11

/-- Leading-whitespace removal. -/
def trimLeftWs (cs : List Char) : List Char := cs.dropWhile isTrimWs

/-- Trailing-whitespace removal. -/
def trimRightWs (cs : List Char) : List Char := (cs.reverse.dropWhile isTrimWs).reverse

/-- JavaScript `.trim()`. -/
def trimWs (cs : List Char) : List Char := trimRightWs (trimLeftWs cs)

/-- The closing-fence step of the code-block regex: the text must end in
three backticks; the fenced content is everything before them. -/
def fenceClose (r2 : List Char) : Option (List Char) :=
  if r2.reverse.take 3 = [btick, btick, btick] then some ((r2.reverse.drop 3).reverse)
  else none

/-- The anchored code-block regex of `cleanJsonResponse` (line 45):
three opening backticks, an optional case-insensitive `json` tag, and three
closing backticks spanning the end; returns the fenced content (whitespace
at its edges is handled by the caller's subsequent trim). -/
def fenceUnwrap (cs : List Char) : Option (List Char) :=
  if cs.take 3 = [btick, btick, btick] then
    fenceClose
      (if ((cs.drop 3).take 4).map Char.toLower = ['j', 's', 'o', 'n']
       then (cs.drop 3).drop 4 else cs.drop 3)
  else none

/-- The brace-search step (line 52, regex first `\x7b` through last
`\x7d`): drop everything before the first opening brace and everything
after the last closing brace; `none` when no such span exists. -/
def braceExtract (t : List Char) : Option (List Char) :=
  match t.dropWhile (fun c => c != lbrace) with
  | [] => none
  | mid =>
    match mid.reverse.dropWhile (fun c => c != rbrace) with
    | [] => none
    | rev => some rev.reverse

/-- Embedding of `cleanJsonResponse` (lines 39-62): trim, unwrap a spanning
code fence and trim again, then narrow to the first-brace/last-brace span
when one exists. -/
def cleanJsonList (text : List Char) : List Char :=
  let cleaned := trimWs text
  let cleaned2 :=
    match fenceUnwrap cleaned with
    | some inner => trimWs inner
    | none => cleaned
  match braceExtract cleaned2 with
  | some j => j
  | none => cleaned2

/-- `cleanJsonResponse` at the string level. -/
def cleanJsonResponse (text : String) : String := String.mk (cleanJsonList text.toList)

/-- The engine-specific message of the underlying `JSON.parse` syntax
error, abstracted. -/
def jsonParseErrorNote : String := "Unexpected token"

/-- Embedding of `parseAIResponse` (lines 65-80): clean, then `JSON.parse`;
a parse failure becomes a thrown error whose message starts with the
literal prefix of line 78. -/
def parseAIResponseList (text : List Char) : Except String Json :=
  match parseJsonList (cleanJsonList text) with
  | some parsed => .ok parsed
  | none => .error ("Failed to parse AI response as JSON: " ++ jsonParseErrorNote)

/-- `parseAIResponse` at the string level. -/
def parseAIResponse (text : String) : Except String Json := parseAIResponseList text.toList

theorem dropWhile_append_congr (p : Char → Bool) (xs ys : List Char)
    (hy : ys.dropWhile p = ys) :
    (xs ++ ys).dropWhile p = xs.dropWhile p ++ ys := by
  rw [List.dropWhile_append]
  split
  · rename_i h
    rw [List.isEmpty_iff] at h
    rw [h, List.nil_append, hy]
  · rfl

theorem dropWhile_cons_false (p : Char → Bool) (c : Char) (tl : List Char)
    (h : p c = false) : (c :: tl).dropWhile p = c :: tl := by
  simp [List.dropWhile_cons, h]

theorem mem_of_mem_dropWhile (p : Char → Bool) (l : List Char) :
    ∀ c ∈ l.dropWhile p, c ∈ l := by
  induction l with
  | nil => simp
  | cons x xs ih =>
    intro c hc
    rw [List.dropWhile_cons] at hc
    by_cases hp : p x = true
    · rw [if_pos hp] at hc
      exact List.mem_cons_of_mem x (ih c hc)
    · rw [if_neg (by simp [hp])] at hc
      exact hc

theorem trimWs_sandwich (a b mid : List Char) :
    ∃ a1 b1, trimWs (a ++ (lbrace :: mid ++ [rbrace]) ++ b) =
        a1 ++ (lbrace :: mid ++ [rbrace]) ++ b1 ∧
      (∀ c ∈ a1, c ∈ a) ∧ (∀ c ∈ b1, c ∈ b) := by
  refine ⟨a.dropWhile isTrimWs, (b.reverse.dropWhile isTrimWs).reverse, ?_, ?_, ?_⟩
  · have h1 : trimLeftWs (a ++ (lbrace :: mid ++ [rbrace]) ++ b) =
        a.dropWhile isTrimWs ++ ((lbrace :: mid ++ [rbrace]) ++ b) := by
      unfold trimLeftWs
      rw [List.append_assoc]
      refine dropWhile_append_congr isTrimWs a _ ?_
      have hsh : (lbrace :: mid ++ [rbrace]) ++ b =
          lbrace :: ((mid ++ [rbrace]) ++ b) := by simp
      rw [hsh]
      exact dropWhile_cons_false _ _ _ (by decide)
    have h2 : trimRightWs (a.dropWhile isTrimWs ++ ((lbrace :: mid ++ [rbrace]) ++ b)) =
        a.dropWhile isTrimWs ++
          ((lbrace :: mid ++ [rbrace]) ++ (b.reverse.dropWhile isTrimWs).reverse) := by
      unfold trimRightWs
      have hrev : (a.dropWhile isTrimWs ++ ((lbrace :: mid ++ [rbrace]) ++ b)).reverse =
          b.reverse ++ (rbrace :: ((mid.reverse ++ [lbrace]) ++ (a.dropWhile isTrimWs).reverse)) := by
        simp [List.append_assoc]
      rw [hrev]
      rw [dropWhile_append_congr isTrimWs b.reverse _
        (dropWhile_cons_false _ _ _ (by decide))]
      simp [List.append_assoc]
    unfold trimWs
    rw [h1, h2]
    simp [List.append_assoc]
  · exact mem_of_mem_dropWhile _ a
  · intro c hc
    rw [List.mem_reverse] at hc
    have := mem_of_mem_dropWhile _ b.reverse c hc
    rw [List.mem_reverse] at this
    exact this

theorem braceExtract_sandwich (a b mid : List Char)
    (ha : ∀ c ∈ a, c ≠ lbrace) (hb : ∀ c ∈ b, c ≠ rbrace) :
    braceExtract (a ++ (lbrace :: mid ++ [rbrace]) ++ b) = some (lbrace :: mid ++ [rbrace]) := by
  have h1 : (a ++ (lbrace :: mid ++ [rbrace]) ++ b).dropWhile (fun c => c != lbrace) =
      lbrace :: ((mid ++ [rbrace]) ++ b) := by
    rw [List.append_assoc]
    have hy : ((lbrace :: mid ++ [rbrace]) ++ b).dropWhile (fun c => c != lbrace) =
        (lbrace :: mid ++ [rbrace]) ++ b := by
      have hsh : (lbrace :: mid ++ [rbrace]) ++ b = lbrace :: ((mid ++ [rbrace]) ++ b) := by
        simp
      rw [hsh]
      exact dropWhile_cons_false _ _ _ (by simp)
    rw [dropWhile_append_congr _ a _ hy]
    have hnil : a.dropWhile (fun c => c != lbrace) = [] :=
      List.dropWhile_eq_nil_iff.2 (fun c hc => by simp [ha c hc])
    rw [hnil, List.nil_append]
    simp
  have h2 : (lbrace :: ((mid ++ [rbrace]) ++ b)).reverse.dropWhile (fun c => c != rbrace) =
      rbrace :: (mid.reverse ++ [lbrace]) := by
    have hrev : (lbrace :: ((mid ++ [rbrace]) ++ b)).reverse =
        b.reverse ++ (rbrace :: (mid.reverse ++ [lbrace])) := by
      simp [List.append_assoc]
    rw [hrev, dropWhile_append_congr _ b.reverse _ (dropWhile_cons_false _ _ _ (by simp))]
    have hnil : b.reverse.dropWhile (fun c => c != rbrace) = [] :=
      List.dropWhile_eq_nil_iff.2 (fun c hc => by simp [hb c (List.mem_reverse.1 hc)])
    rw [hnil, List.nil_append]
  unfold braceExtract
  rw [h1]
  have h3 : (match lbrace :: ((mid ++ [rbrace]) ++ b) with
      | ([] : List Char) => (none : Option (List Char))
      | mid2 =>
        match mid2.reverse.dropWhile (fun c => c != rbrace) with
        | [] => none
        | rev => some rev.reverse) =
      match (lbrace :: ((mid ++ [rbrace]) ++ b)).reverse.dropWhile (fun c => c != rbrace) with
      | [] => none
      | rev => some rev.reverse := rfl
  rw [h3, h2]
  simp

theorem take3_backticks_length (x : Char) (hx : x ≠ btick) (a rest : List Char)
    (h : (a ++ x :: rest).take 3 = [btick, btick, btick]) : 3 ≤ a.length := by
  by_contra hlt
  push_neg at hlt
  have hmem : x ∈ (a ++ x :: rest).take 3 := by
    rw [List.take_append_eq_append_take]
    obtain ⟨k, hk⟩ : ∃ k, 3 - a.length = k + 1 := ⟨2 - a.length, by omega⟩
    rw [hk]
    refine List.mem_append.2 (Or.inr ?_)
    rw [List.take_succ_cons]
    exact List.mem_cons_self _ _
  rw [h] at hmem
  simp only [List.mem_cons, List.not_mem_nil, or_false] at hmem
  rcases hmem with h1 | h1 | h1 <;> exact hx h1

theorem take4_json_length (a rest : List Char)
    (h : ((a ++ lbrace :: rest).take 4).map Char.toLower = ['j', 's', 'o', 'n']) :
    4 ≤ a.length := by
  by_contra hlt
  push_neg at hlt
  have hmem : lbrace ∈ (a ++ lbrace :: rest).take 4 := by
    rw [List.take_append_eq_append_take]
    obtain ⟨k, hk⟩ : ∃ k, 4 - a.length = k + 1 := ⟨3 - a.length, by omega⟩
    rw [hk]
    refine List.mem_append.2 (Or.inr ?_)
    rw [List.take_succ_cons]
    exact List.mem_cons_self _ _
  have hmem2 : Char.toLower lbrace ∈ ((a ++ lbrace :: rest).take 4).map Char.toLower :=
    List.mem_map_of_mem _ hmem
  rw [h] at hmem2
  revert hmem2
  decide

theorem drop_append_of_le (n : Nat) (a x : List Char) (h : n ≤ a.length) :
    (a ++ x).drop n = a.drop n ++ x := by
  rw [List.drop_append_eq_append_drop]
  have h0 : n - a.length = 0 := by omega
  rw [h0, List.drop_zero]

theorem fenceClose_sandwich (a2 b mid : List Char) :
    fenceClose (a2 ++ (lbrace :: mid ++ [rbrace]) ++ b) = none ∨
    ∃ b2, fenceClose (a2 ++ (lbrace :: mid ++ [rbrace]) ++ b) =
        some (a2 ++ (lbrace :: mid ++ [rbrace]) ++ b2) ∧ (∀ c ∈ b2, c ∈ b) := by
  have hrev : (a2 ++ (lbrace :: mid ++ [rbrace]) ++ b).reverse =
      b.reverse ++ (rbrace :: ((mid.reverse ++ [lbrace]) ++ a2.reverse)) := by
    simp [List.append_assoc]
  unfold fenceClose
  by_cases h : (a2 ++ (lbrace :: mid ++ [rbrace]) ++ b).reverse.take 3 =
      [btick, btick, btick]
  · rw [if_pos h]
    right
    rw [hrev] at h
    have hb3 : 3 ≤ b.reverse.length :=
      take3_backticks_length rbrace (by decide) b.reverse _ h
    refine ⟨(b.reverse.drop 3).reverse, ?_, ?_⟩
    · rw [hrev, drop_append_of_le 3 b.reverse _ hb3]
      simp [List.append_assoc]
    · intro c hc
      rw [List.mem_reverse] at hc
      have := List.drop_subset _ _ hc
      rw [List.mem_reverse] at this
      exact this
  · rw [if_neg h]
    exact Or.inl rfl

theorem fenceUnwrap_sandwich (a b mid : List Char) :
    fenceUnwrap (a ++ (lbrace :: mid ++ [rbrace]) ++ b) = none ∨
    ∃ a2 b2, fenceUnwrap (a ++ (lbrace :: mid ++ [rbrace]) ++ b) =
        some (a2 ++ (lbrace :: mid ++ [rbrace]) ++ b2) ∧
      (∀ c ∈ a2, c ∈ a) ∧ (∀ c ∈ b2, c ∈ b) := by
  have hfront : a ++ (lbrace :: mid ++ [rbrace]) ++ b =
      a ++ (lbrace :: ((mid ++ [rbrace]) ++ b)) := by
    simp [List.append_assoc]
  unfold fenceUnwrap
  by_cases h1 : (a ++ (lbrace :: mid ++ [rbrace]) ++ b).take 3 = [btick, btick, btick]
  · rw [if_pos h1]
    rw [hfront] at h1
    have ha3 : 3 ≤ a.length := take3_backticks_length lbrace (by decide) a _ h1
    have hd3 : (a ++ (lbrace :: mid ++ [rbrace]) ++ b).drop 3 =
        a.drop 3 ++ (lbrace :: mid ++ [rbrace]) ++ b := by
      rw [hfront, drop_append_of_le 3 a _ ha3]
      simp [List.append_assoc]
    by_cases h2 : (((a ++ (lbrace :: mid ++ [rbrace]) ++ b).drop 3).take 4).map Char.toLower =
        ['j', 's', 'o', 'n']
    · rw [if_pos h2]
      rw [hd3] at h2
      simp only [List.append_assoc, List.cons_append] at h2
      have ha4 : 4 ≤ (a.drop 3).length := take4_json_length (a.drop 3) _ h2
      have hd4 : (a.drop 3 ++ (lbrace :: mid ++ [rbrace]) ++ b).drop 4 =
          (a.drop 3).drop 4 ++ (lbrace :: mid ++ [rbrace]) ++ b := by
        have hf2 : a.drop 3 ++ (lbrace :: mid ++ [rbrace]) ++ b =
            a.drop 3 ++ (lbrace :: ((mid ++ [rbrace]) ++ b)) := by
          simp [List.append_assoc]
        rw [hf2, drop_append_of_le 4 (a.drop 3) _ ha4]
        simp [List.append_assoc]
      rw [hd3, hd4]
      rcases fenceClose_sandwich ((a.drop 3).drop 4) b mid with hc | hEx
      · exact Or.inl hc
      · obtain ⟨b2, hc, hmem⟩ := hEx
        refine Or.inr ⟨(a.drop 3).drop 4, b2, hc, ?_, hmem⟩
        intro c hcm
        exact List.drop_subset _ _ (List.drop_subset _ _ hcm)
    · rw [if_neg h2, hd3]
      rcases fenceClose_sandwich (a.drop 3) b mid with hc | ⟨b2, hc, hmem⟩
      · exact Or.inl hc
      · refine Or.inr ⟨a.drop 3, b2, hc, fun c hcm => List.drop_subset _ _ hcm, hmem⟩
  · rw [if_neg h1]
    exact Or.inl rfl

theorem cleanJsonList_eq (t : List Char) :
    cleanJsonList t =
      match braceExtract (match fenceUnwrap (trimWs t) with
                          | some inner => trimWs inner
                          | none => trimWs t) with
      | some j => j
      | none => match fenceUnwrap (trimWs t) with
                | some inner => trimWs inner
                | none => trimWs t := rfl

theorem obj_render_shape (kvs : List (String × Json)) :
    ∃ mid, renderJson (Json.obj kvs) = lbrace :: mid ++ [rbrace] := by
  cases kvs with
  | nil => exact ⟨[], rfl⟩
  | cons m ms => exact ⟨renderMember m ++ renderMemberSeq ms, rfl⟩

theorem cleanJsonList_sandwich (a b mid : List Char)
    (ha : ∀ c ∈ a, c ≠ lbrace) (hb : ∀ c ∈ b, c ≠ rbrace) :
    cleanJsonList (a ++ (lbrace :: mid ++ [rbrace]) ++ b) = lbrace :: mid ++ [rbrace] := by
  obtain ⟨a1, b1, h1, hma1, hmb1⟩ := trimWs_sandwich a b mid
  rw [cleanJsonList_eq, h1]
  rcases fenceUnwrap_sandwich a1 b1 mid with hf | ⟨a2, b2, hf, hma2, hmb2⟩
  · rw [hf]
    rw [braceExtract_sandwich a1 b1 mid
      (fun c hc => ha c (hma1 c hc)) (fun c hc => hb c (hmb1 c hc))]
  · rw [hf]
    obtain ⟨a3, b3, h3, hma3, hmb3⟩ := trimWs_sandwich a2 b2 mid
    show (match braceExtract (trimWs (a2 ++ (lbrace :: mid ++ [rbrace]) ++ b2)) with
          | some j => j
          | none => trimWs (a2 ++ (lbrace :: mid ++ [rbrace]) ++ b2)) =
        lbrace :: mid ++ [rbrace]
    rw [h3]
    rw [braceExtract_sandwich a3 b3 mid
      (fun c hc => ha c (hma1 c (hma2 c (hma3 c hc))))
      (fun c hc => hb c (hmb1 c (hmb2 c (hmb3 c hc))))]

theorem parseAIResponse_sandwich (kvs : List (String × Json)) (pre post : String)
    (hpre : ∀ c ∈ pre.toList, c ≠ lbrace) (hpost : ∀ c ∈ post.toList, c ≠ rbrace) :
    parseAIResponse (pre ++ stringifyJson (Json.obj kvs) ++ post) = .ok (Json.obj kvs) := by
  have hlist : (pre ++ stringifyJson (Json.obj kvs) ++ post).toList =
      pre.toList ++ renderJson (Json.obj kvs) ++ post.toList := by
    simp [String.toList, String.data_append, stringifyJson]
  have hclean : cleanJsonList (pre.toList ++ renderJson (Json.obj kvs) ++ post.toList) =
      renderJson (Json.obj kvs) := by
    obtain ⟨mid, hS⟩ := obj_render_shape kvs
    rw [hS]
    exact cleanJsonList_sandwich pre.toList post.toList mid hpre hpost
  unfold parseAIResponse parseAIResponseList
  rw [hlist, hclean, parseJsonList_render]

/-- Claim C4: for every JSON object `O` (a member list `kvs`), normalizing
the stringified object wrapped in a fenced code block parses back to an
object deep-equal to `O`; and for arbitrary prose `pre` containing no
opening brace and `post` containing no closing brace, normalizing
`pre ++ stringify(O) ++ post` also parses back to `O`. The fence case is an
instance of the prose case (the fence characters contain no braces), and
both go through `cleanJsonResponse`'s trim, fence-unwrap and
first-brace/last-brace steps. -/
theorem normalizer_extracts_object (kvs : List (String × Json)) (pre post : String)
    (hpre : ∀ c ∈ pre.toList, c ≠ lbrace) (hpost : ∀ c ∈ post.toList, c ≠ rbrace) :
    parseAIResponse ("```json\n" ++ stringifyJson (Json.obj kvs) ++ "\n```") =
      .ok (Json.obj kvs) ∧
    parseAIResponse (pre ++ stringifyJson (Json.obj kvs) ++ post) = .ok (Json.obj kvs) := by
  constructor
  · exact parseAIResponse_sandwich kvs "```json\n" "\n```" (by decide) (by decide)
  · exact parseAIResponse_sandwich kvs pre post hpre hpost

theorem normalizer_extracts_object_witness :
    (∀ c ∈ ("Here is your quiz:\n" : String).toList, c ≠ lbrace) ∧
    (∀ c ∈ (" Hope this helps!" : String).toList, c ≠ rbrace) ∧
    parseAIResponse ("Here is your quiz:\n" ++
        stringifyJson (Json.obj [("title", Json.str "Quiz")]) ++ " Hope this helps!") =
      .ok (Json.obj [("title", Json.str "Quiz")]) :=
  ⟨by decide, by decide,
   (normalizer_extracts_object [("title", Json.str "Quiz")] "Here is your quiz:\n"
     " Hope this helps!" (by decide) (by decide)).2⟩

/-- Claim C6: the normalizer rejects non-JSON input rather than coercing a
result: `parseAIResponse ""` raises the parse-error message; on any text
with no opening brace the brace-search step finds no span (so the text
reaches the structured parse unchanged); whenever the structured parse of
the cleaned text fails, `parseAIResponse` raises the parse-error message;
and the spec's concrete brace-free prose example raises it. -/
theorem normalizer_rejects_nonjson :
    parseAIResponse "" = .error ("Failed to parse AI response as JSON: " ++ jsonParseErrorNote) ∧
    (∀ t : List Char, (∀ c ∈ t, c ≠ lbrace) → braceExtract t = none) ∧
    (∀ t : List Char, parseJsonList (cleanJsonList t) = none →
      parseAIResponseList t =
        .error ("Failed to parse AI response as JSON: " ++ jsonParseErrorNote)) ∧
    parseAIResponse "plain non-JSON prose with no braces" =
      .error ("Failed to parse AI response as JSON: " ++ jsonParseErrorNote) := by
  refine ⟨rfl, ?_, ?_, rfl⟩
  · intro t ht
    unfold braceExtract
    have hnil : t.dropWhile (fun c => c != lbrace) = [] := by
      rw [List.dropWhile_eq_nil_iff]
      intro c hc
      simp [bne_iff_ne, ht c hc]
    rw [hnil]
  · intro t hp
    unfold parseAIResponseList
    rw [hp]

theorem normalizer_rejects_nonjson_witness :
    (∀ c ∈ ("no json here" : String).toList, c ≠ lbrace) ∧
    braceExtract ("no json here" : String).toList = none :=
  ⟨by decide, normalizer_rejects_nonjson.2.1 _ (by decide)⟩
